import Mathlib

/-
Verification of `toil/batchSystems/abstractGridEngineBatchSystem.py`.

The Python module is shallowly embedded below:

* `with_retries`            — the retry wrapper (module-level function);
* `Worker` methods          — `createJobs`, `killJobs`, `checkOnJobs`,
  `getBatchSystemID`, `forgetJob`, and the `run` loop, as pure functions on an
  explicit worker state `WState`;
* boss methods              — `getRunningBatchJobIDs`, `getUpdatedBatchJob`,
  as pure functions on small explicit states;
* the pluggable scheduler driver (abstract methods `prepareSubmission`,
  `submitJob`, `getJobExitCode`, `getRunningJobIDs`, `killJob`) — as a
  deterministic oracle `Driver` whose answers are indexed by invocation
  counters kept in the state, so that time-varying behaviour (fail twice then
  succeed, pending then done) is expressible;
* Python exceptions         — as an explicit error type `PyErr` threaded
  through `Except`-style results that keep the state reached at raise time
  (the worker thread dies with that state);
* the inter-thread queues   — as lists (`put` appends at the end, `get` takes
  the head).  `updatedJobsQueue` and `killedJobsQueue` are kept as cumulative
  logs of everything ever put on them, which is what the reporting claims are
  about.
* instrumentation           — ghost fields (`submitLog`, `killLog`,
  `queryLog`, invocation counters) record the driver interactions; they are
  write-only and never influence control flow.

Unbounded `while` loops of the Python code (the kill-confirmation loop, the
worker `run` loop) are given an explicit fuel argument; running out of fuel
yields a distinguished `hung` / `fuelOut` outcome that models the loop not
returning, so "blocks until X" claims become "for every fuel, without X the
function does not return normally".

Wall-clock time (`datetime.now()`) is passed in as an integer number of
seconds; each call site that reads the clock receives it as a parameter.

Concurrency is modelled at the granularity of the queue hand-offs: a system
trace is a list of events (caller-side `issue` / `killRequest` pushes, and one
full worker-loop iteration `workerIter`), executed by `stepEv`.  The caller
only appends to queues that the worker reads at well-defined points, so any
interleaving is equivalent to one at this granularity.
-/

/-- A Python exception, as far as this module can observe it. -/
inductive PyErr where
  | calledProcessError (returncode : Int) (output : String)
  | runtimeError (msg : String)
  | keyError
  | typeError
deriving DecidableEq

/-- Does `with_retries` catch this exception?  (`except subprocess.CalledProcessError`). -/
def isCPE : PyErr → Bool
  | .calledProcessError _ _ => true
  | _ => false

/-- Result of one invocation of a driver operation: a normal return or a raise. -/
inductive Outcome (α : Type) where
  | success (a : α)
  | raise (e : PyErr)

/-- Loop body of `with_retries`: `retries` countdown, `calls` made so far,
`latest` the last caught `CalledProcessError`.  Mirrors

    retries = 3
    while retries:
        retries -= 1
        try:
            return operation(*args, **kwargs)
        except subprocess.CalledProcessError as err:
            latest_err = err
            logger.error(...)
    raise latest_err

The second component of the result counts the invocations of `operation`.
Raising `latest_err` when it is still `None` would be a `TypeError` in Python;
it is unreachable because the loop starts with a positive budget. -/
def retryGo (op : Nat → Outcome α) : Nat → Nat → Option PyErr → Except PyErr α × Nat
  | 0, calls, latest =>
    (Except.error (match latest with | some e => e | none => PyErr.typeError), calls)
  | r + 1, calls, _latest =>
    match op calls with
    | .success a => (Except.ok a, calls + 1)
    | .raise e =>
      if isCPE e then retryGo op r (calls + 1) (some e)
      else (Except.error e, calls + 1)

/-- `with_retries(operation, *args)`.  The operation is modelled as a function
of the invocation index, so a stub that fails twice and then succeeds is
`fun i => if i < 2 then .raise err else .success v`. -/
def with_retries (op : Nat → Outcome α) : Except PyErr α × Nat :=
  retryGo op 3 0 none

/-- An entry of the new-job queue / waiting list: the tuple
`(jobID, cpu, memory, command)` put by `issueBatchJob` and appended to
`self.waitingJobs` by `createJobs`. -/
structure JobTuple where
  jobID : Nat
  cores : Nat
  memory : Nat
  command : String
deriving DecidableEq

/-- Python `==` between a bare job ID (an `int`) and a waiting-list entry,
which is the 4-tuple `(jobID, cpu, memory, command)`.  In Python an `int`
never compares equal to a `tuple`, so the test `jobID in self.waitingJobs`
inside `Worker.killJobs` can never succeed; this definition records that
semantics. -/
def idEqWaitingEntry (_jobID : Nat) (_w : JobTuple) : Bool := false

/-- The deterministic driver oracle standing for the five abstract
scheduler-specific methods.  Operations that the code invokes through
`with_retries` are indexed by an invocation counter kept in the state, so the
oracle can answer differently on successive invocations (fail, fail, succeed;
pending, pending, done; ...). -/
structure Driver where
  /-- `prepareSubmission(cpu, memory, jobID, command)`: pure formatting. -/
  prepareSubmission : Nat → Nat → Nat → String → String
  /-- `submitJob(subLine)`, at a given global submit-invocation index. -/
  submitOutcome : String → Nat → Outcome Nat
  /-- `getJobExitCode(batchJobID)`, at a given per-batch-job invocation index.
  `none` means still running (Python `None`). -/
  exitOutcome : String → Nat → Outcome (Option Int)
  /-- `getRunningJobIDs()`, at a given invocation index (boss side). -/
  listOutcome : Nat → Outcome (Finset Nat)

/-- The configuration knobs this module reads. -/
structure Config where
  maxLocalJobs : Nat
  statePollingWait : Int

/-- The worker-side state: the four queues, the waiting list, the running set,
the handle map, the `checkOnJobs` poll cache, and ghost instrumentation.
`updatedJobsQueue` and `killedJobsQueue` are cumulative logs of every `put`. -/
structure WState where
  newJobsQueue : List (Option JobTuple)
  updatedJobsQueue : List (Nat × Int)
  killQueue : List Nat
  killedJobsQueue : List Nat
  waitingJobs : List JobTuple
  runningJobs : List Nat
  batchJobIDs : List (Nat × (Nat × Option Nat))
  chkCache : Option Bool
  chkTs : Option Int
  submitCalls : Nat
  exitCalls : String → Nat
  submitLog : List Nat
  killLog : List Nat
  queryLog : List String

/-- The empty initial worker state built by `Worker.__init__`. -/
def initW : WState :=
  ⟨[], [], [], [], [], [], [], none, none, 0, fun _ => 0, [], [], []⟩

/-- Python `set.add` on the duplicate-free list model of `runningJobs`
(`set` iteration order is unspecified in Python; the model fixes insertion
order).  `len(set)` is the list length and `set.remove` is `List.erase`. -/
def setAdd (l : List Nat) (x : Nat) : List Nat := if x ∈ l then l else l ++ [x]

/-- Python `dict` lookup on the association-list model of `batchJobIDs`. -/
def dictGet (l : List (Nat × (Nat × Option Nat))) (k : Nat) : Option (Nat × Option Nat) :=
  match l with
  | [] => none
  | (k', v) :: rest => if k' = k then some v else dictGet rest k

/-- Python `dict` assignment `d[k] = v`. -/
def dictSet (l : List (Nat × (Nat × Option Nat))) (k : Nat) (v : Nat × Option Nat) :
    List (Nat × (Nat × Option Nat)) :=
  (k, v) :: l.filter (fun p => p.1 ≠ k)

/-- Python `del d[k]`. -/
def dictDel (l : List (Nat × (Nat × Option Nat))) (k : Nat) :
    List (Nat × (Nat × Option Nat)) :=
  l.filter (fun p => p.1 ≠ k)

/-- The key set of the handle map. -/
def keysOf (l : List (Nat × (Nat × Option Nat))) : List Nat := l.map Prod.fst

/-- Result of a worker operation: a value or a raised exception, in both cases
with the state reached at that point (a raise kills the worker thread with
that state). -/
inductive WRes (α : Type) where
  | ok (a : α) (s : WState)
  | err (e : PyErr) (s : WState)

/-- The state carried by a `WRes`. -/
def wresState : WRes α → WState
  | .ok _ s => s
  | .err _ s => s

/-- `Worker.getBatchSystemID(jobID)`: raises `RuntimeError` when the job is
unknown, otherwise renders the batch job ID (the task part is always `None`
in this module, see the TODO note in `createJobs`). -/
def getBatchSystemID (s : WState) (jobID : Nat) : Except PyErr String :=
  match dictGet s.batchJobIDs jobID with
  | none => .error (.runtimeError "Unknown jobID, could not be converted")
  | some (job, task) =>
    match task with
    | none => .ok (toString job)
    | some t => .ok (toString job ++ "." ++ toString t)

/-- `Worker.forgetJob(jobID)`: `runningJobs.remove` (raises `KeyError` when
absent), then `del batchJobIDs[jobID]` (raises `KeyError` when absent, after
the set removal already happened). -/
def forgetJob (s : WState) (jobID : Nat) : WRes Unit :=
  if jobID ∈ s.runningJobs then
    let s1 : WState := { s with runningJobs := s.runningJobs.erase jobID }
    if (dictGet s1.batchJobIDs jobID).isSome then
      .ok () { s1 with batchJobIDs := dictDel s1.batchJobIDs jobID }
    else .err .keyError s1
  else .err .keyError s

/-- Bump the per-batch-job exit-query invocation counter by `n`. -/
def bumpCalls (f : String → Nat) (b : String) (n : Nat) : String → Nat :=
  fun x => if x = b then f x + n else f x

/-- The `while` loop of `Worker.createJobs`: launch jobs while the waiting
list is non-empty and the running set is below `int(maxLocalJobs)`.  The first
argument is the current waiting list (the loop pops its head).  The popped
job's ID is appended to the ghost `submitLog` when `submitJob` is invoked;
on a raise that escapes `with_retries`, the job has been popped but is neither
running nor recorded, matching the Python control flow. -/
def createJobsLoop (d : Driver) (cfg : Config) :
    List JobTuple → WState → Bool → WRes Bool
  | [], s, act => .ok act { s with waitingJobs := [] }
  | w :: rest, s, act =>
    if s.runningJobs.length < cfg.maxLocalJobs then
      let subLine := d.prepareSubmission w.cores w.memory w.jobID w.command
      let rn := with_retries (fun i => d.submitOutcome subLine (s.submitCalls + i))
      let s1 : WState :=
        { s with waitingJobs := rest
               , submitCalls := s.submitCalls + rn.2
               , submitLog := s.submitLog ++ [w.jobID] }
      match rn.1 with
      | .error e => .err e s1
      | .ok batchJobID =>
        createJobsLoop d cfg rest
          { s1 with batchJobIDs := dictSet s1.batchJobIDs w.jobID (batchJobID, none)
                  , runningJobs := setAdd s1.runningJobs w.jobID }
          true
    else .ok act { s with waitingJobs := w :: rest }

/-- `Worker.createJobs(newJob)`: append the new job (when present) to the
waiting list, then run the launch loop; returns the `activity` flag. -/
def createJobs (d : Driver) (cfg : Config) (newJob : Option JobTuple) (s : WState) :
    WRes Bool :=
  let s1 : WState :=
    match newJob with
    | some j => { s with waitingJobs := s.waitingJobs ++ [j] }
    | none => s
  createJobsLoop d cfg s1.waitingJobs s1 false

/-- First `for` loop of `Worker.killJobs`: iterate over a snapshot of
`killList`; a running job gets a `killJob` driver call (recorded in the ghost
`killLog`), any other job is reported killed at once and dropped from
`killList`.  The `waitingJobs.remove` branch is guarded by the
always-false `int == tuple` membership test, see `idEqWaitingEntry`. -/
def killPhase1 : List Nat → List Nat → WState → List Nat × WState
  | [], kl, s => (kl, s)
  | jobID :: rest, kl, s =>
    if jobID ∈ s.runningJobs then
      killPhase1 rest kl { s with killLog := s.killLog ++ [jobID] }
    else
      let s1 : WState :=
        if s.waitingJobs.any (fun w => idEqWaitingEntry jobID w) then
          { s with waitingJobs := s.waitingJobs.eraseP (fun w => idEqWaitingEntry jobID w) }
        else s
      killPhase1 rest (kl.erase jobID)
        { s1 with killedJobsQueue := s1.killedJobsQueue ++ [jobID] }

/-- Outcome of `Worker.killJobs` (and of the kill-confirmation loop):
a normal return, a raise, or `hung` when the confirmation `while` loop is still
spinning after the given fuel — modelling that the call does not return. -/
inductive KRes where
  | done (activity : Bool) (s : WState)
  | err (e : PyErr) (s : WState)
  | hung (s : WState)

/-- The state carried by a `KRes`. -/
def kresState : KRes → WState
  | .done _ s => s
  | .err _ s => s
  | .hung s => s

/-- One round of the kill-confirmation loop: `for jobID in list(killList)`,
query the exit code through `with_retries`; a non-pending answer reports the
job killed, drops it from `killList` and forgets it. -/
def killConfirmRound (d : Driver) : List Nat → List Nat → WState → WRes (List Nat)
  | [], kl, s => .ok kl s
  | jobID :: rest, kl, s =>
    match getBatchSystemID s jobID with
    | .error e => .err e s
    | .ok batchJobID =>
      let rn := with_retries (fun i => d.exitOutcome batchJobID (s.exitCalls batchJobID + i))
      let s1 : WState :=
        { s with exitCalls := bumpCalls s.exitCalls batchJobID rn.2
               , queryLog := s.queryLog ++ List.replicate rn.2 batchJobID }
      match rn.1 with
      | .error e => .err e s1
      | .ok status =>
        match status with
        | some _ =>
          let s2 : WState := { s1 with killedJobsQueue := s1.killedJobsQueue ++ [jobID] }
          match forgetJob s2 jobID with
          | .ok _ s3 => killConfirmRound d rest (kl.erase jobID) s3
          | .err e s3 => .err e s3
        | none => killConfirmRound d rest kl s1

/-- The `while killList:` confirmation loop, with fuel bounding the number of
rounds; the sleep between rounds is irrelevant to the state and elided. -/
def killConfirmLoop (d : Driver) : Nat → List Nat → WState → KRes
  | _, [], s => .done true s
  | 0, _ :: _, s => .hung s
  | fuel + 1, kl, s =>
    match killConfirmRound d kl kl s with
    | .err e s1 => .err e s1
    | .ok kl1 s1 => killConfirmLoop d fuel kl1 s1

/-- `Worker.killJobs()`: drain the kill queue; return `False` when it was
empty; otherwise run the two phases. -/
def killJobs (d : Driver) (fuel : Nat) (s : WState) : KRes :=
  let killList := s.killQueue
  let s1 : WState := { s with killQueue := [] }
  match killList with
  | [] => .done false s1
  | _ :: _ =>
    let p := killPhase1 killList killList s1
    killConfirmLoop d fuel p.1 p.2

/-- The polling `for` loop of `Worker.checkOnJobs`, over a snapshot
`list(self.runningJobs)` of the running set (Python iterates the set in
unspecified order; the embedding iterates the model list's order).  A job
whose exit code is available is put on the updated-job queue and forgotten. -/
def checkOnJobsLoop (d : Driver) : List Nat → Bool → WState → WRes Bool
  | [], act, s => .ok act s
  | jobID :: rest, act, s =>
    match getBatchSystemID s jobID with
    | .error e => .err e s
    | .ok batchJobID =>
      let rn := with_retries (fun i => d.exitOutcome batchJobID (s.exitCalls batchJobID + i))
      let s1 : WState :=
        { s with exitCalls := bumpCalls s.exitCalls batchJobID rn.2
               , queryLog := s.queryLog ++ List.replicate rn.2 batchJobID }
      match rn.1 with
      | .error e => .err e s1
      | .ok status =>
        match status with
        | some code =>
          let s2 : WState := { s1 with updatedJobsQueue := s1.updatedJobsQueue ++ [(jobID, code)] }
          match forgetJob s2 jobID with
          | .ok _ s3 => checkOnJobsLoop d rest true s3
          | .err e s3 => .err e s3
        | none => checkOnJobsLoop d rest act s1

/-- The cache-miss path of `Worker.checkOnJobs`: poll every running job, then
store the `activity` flag in the cache and stamp it.  The code reads
`datetime.now()` a second time for the stamp; both reads are modelled by the
single `now` parameter. -/
def checkOnJobsRefresh (d : Driver) (now : Int) (s : WState) : WRes Bool :=
  match checkOnJobsLoop d s.runningJobs false s with
  | .ok act s1 => .ok act { s1 with chkCache := some act, chkTs := some now }
  | .err e s1 => .err e s1

/-- `Worker.checkOnJobs()`: return the cached flag while the stamp is younger
than `statePollingWait`, otherwise poll.  When the stamp is set the cache has
always been set by the same assignment, so the `getD false` default is
unreachable. -/
def checkOnJobs (d : Driver) (cfg : Config) (now : Int) (s : WState) : WRes Bool :=
  match s.chkTs with
  | some ts =>
    if now - ts < cfg.statePollingWait then .ok (s.chkCache.getD false) s
    else checkOnJobsRefresh d now s
  | none => checkOnJobsRefresh d now s

/-- Outcome of one iteration of the `Worker.run` loop. -/
inductive IterOut where
  | cont (s : WState)
  | stopped (s : WState)
  | err (e : PyErr) (s : WState)
  | hung (s : WState)

/-- The state carried by an `IterOut`. -/
def iterState : IterOut → WState
  | .cont s => s
  | .stopped s => s
  | .err _ s => s
  | .hung s => s

/-- The tail of a `run` iteration after the new-job dequeue:
`killJobs(); createJobs(newJob); checkOnJobs()` in that order (the `activity`
flags do not influence control flow). -/
def iterBody (d : Driver) (cfg : Config) (now : Int) (kfuel : Nat)
    (newJob : Option JobTuple) (s : WState) : IterOut :=
  match killJobs d kfuel s with
  | .err e s1 => .err e s1
  | .hung s1 => .hung s1
  | .done _ s1 =>
    match createJobs d cfg newJob s1 with
    | .err e s2 => .err e s2
    | .ok _ s2 =>
      match checkOnJobs d cfg now s2 with
      | .err e s3 => .err e s3
      | .ok _ s3 => .cont s3

/-- One iteration of `Worker.run`: non-blocking dequeue of at most one entry
of the new-job queue; a dequeued sentinel (`None`) breaks out of the loop
immediately. -/
def iterOnce (d : Driver) (cfg : Config) (now : Int) (kfuel : Nat) (s : WState) : IterOut :=
  match s.newJobsQueue with
  | [] => iterBody d cfg now kfuel none s
  | item :: rest =>
    let s1 : WState := { s with newJobsQueue := rest }
    match item with
    | none => .stopped s1
    | some j => iterBody d cfg now kfuel (some j) s1

/-- Outcome of `Worker.run` under fuel: `stopped` is the `break` on the
sentinel, `fuelOut` is exhaustion of the iteration fuel (the real loop would
just keep spinning), `crashed` a raise, `hung` a kill-confirmation loop that
never completed. -/
inductive RunOut where
  | stopped (s : WState)
  | fuelOut (s : WState)
  | crashed (e : PyErr) (s : WState)
  | hung (s : WState)

/-- The state carried by a `RunOut`. -/
def runOutState : RunOut → WState
  | .stopped s => s
  | .fuelOut s => s
  | .crashed _ s => s
  | .hung s => s

/-- Is the outcome the sentinel `break`? -/
def runOutIsStopped : RunOut → Bool
  | .stopped _ => true
  | _ => false

/-- `Worker.run()`: iterate `iterOnce`; `tf i` is the wall clock at iteration
`i`, `kfuel` the per-iteration fuel of the kill-confirmation loop. -/
def runLoop (d : Driver) (cfg : Config) (tf : Nat → Int) (kfuel : Nat) :
    Nat → Nat → WState → RunOut
  | 0, _, s => .fuelOut s
  | fuel + 1, i, s =>
    match iterOnce d cfg (tf i) kfuel s with
    | .cont s1 => runLoop d cfg tf kfuel fuel (i + 1) s1
    | .stopped s1 => .stopped s1
    | .err e s1 => .crashed e s1
    | .hung s1 => .hung s1

/-- The boss-side state read and written by `getRunningBatchJobIDs`: the
poll cache (`_getRunningBatchJobIDsCache` / `..Timestamp`) and the invocation
counter for the remote `getRunningJobIDs` calls (each retry attempt is one
remote call). -/
structure BossRunState where
  cache : Finset Nat
  ts : Option Int
  listCalls : Nat

/-- `AbstractGridEngineBatchSystem.getRunningBatchJobIDs()`.  The local
running IDs (from the local-execution collaborator, out of scope) are the
parameter `localIDs`.  Crucially, `batchIds` is the very dict object stored in
the cache, and `batchIds.update(...)` mutates it in place — so after the
merge the cache holds the merged set on both the hit and the miss path. -/
def getRunningBatchJobIDs (d : Driver) (wait : Int) (now : Int)
    (localIDs : Finset Nat) (s : BossRunState) :
    Except PyErr (Finset Nat × BossRunState) :=
  match s.ts with
  | some t =>
    if now - t < wait then
      let batchIds := s.cache
      let merged := batchIds ∪ localIDs
      .ok (merged, { s with cache := merged })
    else
      let rn := with_retries (fun i => d.listOutcome (s.listCalls + i))
      match rn.1 with
      | .error e => .error e
      | .ok ids =>
        let s1 : BossRunState := { cache := ids, ts := some now, listCalls := s.listCalls + rn.2 }
        let merged := ids ∪ localIDs
        .ok (merged, { s1 with cache := merged })
  | none =>
    let rn := with_retries (fun i => d.listOutcome (s.listCalls + i))
    match rn.1 with
    | .error e => .error e
    | .ok ids =>
      let s1 : BossRunState := { cache := ids, ts := some now, listCalls := s.listCalls + rn.2 }
      let merged := ids ∪ localIDs
      .ok (merged, { s1 with cache := merged })

/-- The boss-side state read and written by `getUpdatedBatchJob`: the issued
set `currentJobs` and (its view of) the updated-job queue. -/
structure BossUpdState where
  currentJobs : Finset Nat
  updatedQueue : List (Nat × Int)

/-- `AbstractGridEngineBatchSystem.getUpdatedBatchJob(maxWait)`.  The local
collaborator's non-blocking answer is the parameter `localTuple`; an empty
queue models the `Empty` timeout.  On a dequeued item the code runs
`self.currentJobs.remove(jobID)`, which raises `KeyError` when the ID is not
in the issued set. -/
def getUpdatedBatchJob (localTuple : Option (Nat × Int × Option Int)) (s : BossUpdState) :
    Except PyErr (Option (Nat × Int × Option Int) × BossUpdState) :=
  match localTuple with
  | some t => .ok (some t, s)
  | none =>
    match s.updatedQueue with
    | [] => .ok (none, s)
    | (jobID, retcode) :: rest =>
      let s1 : BossUpdState := { s with updatedQueue := rest }
      if jobID ∈ s1.currentJobs then
        .ok (some (jobID, retcode, none), { s1 with currentJobs := s1.currentJobs.erase jobID })
      else .error .keyError

/-- Status of the worker thread in a system trace. -/
inductive WStatus where
  | active
  | finished
  | crashed
  | hung
deriving DecidableEq

/-- A whole-system state: the worker state, the boss-side fresh-ID counter
(`getNextJobID`, which hands out increasing integers), and the worker-thread
status. -/
structure Sys where
  w : WState
  nextJobID : Nat
  status : WStatus

/-- The initial system state. -/
def initSys : Sys := ⟨initW, 0, .active⟩

/-- An event of a system trace: a caller-side `issueBatchJob` of a cluster
job, a caller-side push of one ID onto the kill queue (the first half of
`killBatchJobs`), or one worker-loop iteration taken at wall-clock `now` with
kill-confirmation fuel `kfuel`. -/
inductive Ev where
  | issue (cores memory : Nat) (command : String)
  | killRequest (id : Nat)
  | workerIter (now : Int) (kfuel : Nat)

/-- Execute one event.
`issue` is `issueBatchJob` on the cluster path: allocate the next job ID and
put `(jobID, cores, memory, command)` on the new-job queue.  The ID allocation
is modelled from the spec: `getNextJobID` (not part of this module) returns a
fresh ID, here the successor counter.  A worker iteration only runs while the
worker thread is active; a crash, hang or sentinel stop freezes the worker. -/
def stepEv (d : Driver) (cfg : Config) (s : Sys) : Ev → Sys
  | .issue c m cmd =>
    { s with
        w := { s.w with newJobsQueue := s.w.newJobsQueue ++ [some ⟨s.nextJobID, c, m, cmd⟩] }
      , nextJobID := s.nextJobID + 1 }
  | .killRequest id =>
    { s with w := { s.w with killQueue := s.w.killQueue ++ [id] } }
  | .workerIter now kfuel =>
    if s.status = WStatus.active then
      match iterOnce d cfg now kfuel s.w with
      | .cont w1 => { s with w := w1 }
      | .stopped w1 => { s with w := w1, status := .finished }
      | .err _ w1 => { s with w := w1, status := .crashed }
      | .hung w1 => { s with w := w1, status := .hung }
    else s

/-- Execute a list of events from a state. -/
def runEvents (d : Driver) (cfg : Config) (s : Sys) : List Ev → Sys
  | [] => s
  | e :: evs => runEvents d cfg (stepEv d cfg s e) evs

/-- Is this event harmless for the exactly-once reporting discipline?  A
worker iteration is, when every kill request pending at that moment names a
job currently in the running set. -/
def killSafeEv (s : Sys) : Ev → Bool
  | .workerIter _ _ =>
    decide (s.status ≠ WStatus.active) ||
      s.w.killQueue.all (fun j => decide (j ∈ s.w.runningJobs))
  | _ => true

/-- A trace is kill-safe when every worker iteration in it processes only
kill requests that name running jobs. -/
def KillsSafe (d : Driver) (cfg : Config) (s : Sys) : List Ev → Bool
  | [] => true
  | e :: evs => killSafeEv s e && KillsSafe d cfg (stepEv d cfg s e) evs

/-- The job IDs of the waiting list. -/
def waitIDs (s : WState) : List Nat := s.waitingJobs.map JobTuple.jobID

/-- The job IDs sitting in the new-job queue (the sentinel carries none). -/
def queueIDs (s : WState) : List Nat :=
  s.newJobsQueue.filterMap (fun o => o.map JobTuple.jobID)

/-- Every job ID this module has accepted, in issue order: already submitted
(ghost submission log), then waiting, then still queued. -/
def pipeline (s : WState) : List Nat := s.submitLog ++ waitIDs s ++ queueIDs s

/-- Every job ID ever reported terminal: completions on the updated-job
queue, then kill confirmations. -/
def reported (s : WState) : List Nat :=
  s.updatedJobsQueue.map Prod.fst ++ s.killedJobsQueue

/-- A benign driver: submission returns the invocation index as batch ID,
exit-code queries answer exit code 0 at once, listing returns the empty set. -/
def d0 : Driver :=
  ⟨fun _ _ j _ => toString j, fun _ n => .success n,
   fun _ _ => .success (some 0), fun _ => .success ∅⟩

/-- A driver whose exit-code queries answer "still pending" on the first
invocation per batch job and exit code 0 afterwards. -/
def dPendOnce : Driver :=
  ⟨fun _ _ j _ => toString j, fun _ n => .success n,
   fun _ k => if k = 0 then .success none else .success (some 0),
   fun _ => .success ∅⟩

/-- A driver whose exit-code queries never stop answering "still pending". -/
def dPendEver : Driver :=
  ⟨fun _ _ j _ => toString j, fun _ n => .success n,
   fun _ _ => .success none, fun _ => .success ∅⟩

/-- Ceiling 1, zero poll-cache validity (every call refreshes). -/
def cfg1 : Config := ⟨1, 0⟩

/-- Counterexample trace for the reporting claim: issue one job, let it be
submitted and complete (one worker iteration), then request a kill of the
now-terminal ID and run another iteration. -/
def c1evs : List Ev :=
  [.issue 1 1 "c", .workerIter 0 2, .killRequest 0, .workerIter 1 2]

/-- Witness trace for the amended reporting claim: same shape, but the driver
keeps the job pending through the first iteration, so the kill request names
a running job and the trace is kill-safe. -/
def c1wevs : List Ev :=
  [.issue 1 1 "c", .workerIter 0 2, .killRequest 0, .workerIter 1 2]

/-- A worker state with job 5 running under batch handle 9 and a pending kill
request for it. -/
def c4s : WState :=
  { initW with killQueue := [5], runningJobs := [5], batchJobIDs := [(5, (9, none))] }

/-- A worker state with job 5 still waiting (never submitted) and a pending
kill request for it. -/
def c5s : WState :=
  { initW with waitingJobs := [⟨5, 1, 2, "cmd"⟩], killQueue := [5] }

/-- A new-job queue holding two jobs and then the shutdown sentinel. -/
def c7s0 : WState :=
  { initW with newJobsQueue := [some ⟨0, 1, 1, "a"⟩, some ⟨1, 1, 1, "b"⟩, none] }

/-- A new-job queue holding just the shutdown sentinel. -/
def c7w0 : WState :=
  { initW with newJobsQueue := [none] }

/-- A driver whose remote running-ID listing answers `{10}`. -/
def c9d : Driver :=
  ⟨fun _ _ j _ => toString j, fun _ n => .success n,
   fun _ _ => .success (some 0), fun _ => .success {10}⟩

/-- A worker state with job 3 running under batch handle 4 (for the poll-cache
witness). -/
def c8s : WState :=
  { initW with runningJobs := [3], batchJobIDs := [(3, (4, none))] }

/-- Did `killJobs` return normally? -/
def kresIsDone : KRes → Bool
  | .done _ _ => true
  | _ => false

/-- The worker-side safety invariant, relative to the boss-side fresh-ID
counter `n`.  It holds of every reachable state: the running set is a set
(duplicate-free) and within the ceiling; the accepted-job pipeline
(submitted ++ waiting ++ queued) is strictly increasing, which is exactly
FIFO submission order because IDs are allocated in increasing order; the
handle map tracks exactly the running set; running jobs were all submitted;
waiting/queued jobs are never simultaneously running; and everything accepted
is below the allocation counter. -/
structure WInv (cfg : Config) (n : Nat) (s : WState) : Prop where
  nodup_run : s.runningJobs.Nodup
  card_le : s.runningJobs.length ≤ cfg.maxLocalJobs
  sorted : (pipeline s).Sorted (· < ·)
  keys_run : ∀ k, k ∈ keysOf s.batchJobIDs ↔ k ∈ s.runningJobs
  run_sub : ∀ k ∈ s.runningJobs, k ∈ s.submitLog
  wq_run : ∀ k, k ∈ waitIDs s ++ queueIDs s → k ∉ s.runningJobs
  fresh : ∀ k ∈ pipeline s, k < n

/-- The exactly-once reporting invariant (only preserved on kill-safe
traces): no ID is ever reported twice across the updated-job queue and the
killed-confirmation queue, and a reported ID is terminal — no longer waiting,
queued or running — and was allocated. -/
structure RepInv (n : Nat) (s : WState) : Prop where
  nodup : (reported s).Nodup
  disj_run : ∀ k ∈ reported s, k ∉ s.runningJobs
  disj_wq : ∀ k ∈ reported s, k ∉ waitIDs s ++ queueIDs s
  rep_fresh : ∀ k ∈ reported s, k < n

/-- What the worker knows about a job freshly dequeued from the new-job queue
but not yet appended to the waiting list (it is dequeued before `killJobs`
runs and appended by `createJobs` afterwards): its ID is allocated, above
everything submitted or waiting, below everything still queued, and not
running. -/
def NewJobOK (n : Nat) (s : WState) : Option JobTuple → Prop
  | none => True
  | some j => j.jobID < n ∧ (∀ x ∈ s.submitLog ++ waitIDs s, x < j.jobID) ∧
      (∀ x ∈ queueIDs s, j.jobID < x) ∧ j.jobID ∉ s.runningJobs

/-- A freshly dequeued job has never been reported terminal. -/
def NewJobRep (s : WState) : Option JobTuple → Prop
  | none => True
  | some j => j.jobID ∉ reported s

/-- What each worker sub-operation preserves between its entry state `s` and
any of its exit states `s'`: the worker invariant, the reporting invariant,
and the knowledge about a dequeued-but-not-yet-appended new job. -/
def PresOut (cfg : Config) (n : Nat) (nj : Option JobTuple) (s s' : WState) : Prop :=
  WInv cfg n s' ∧
  (RepInv n s → RepInv n s') ∧
  (NewJobOK n s nj → NewJobOK n s' nj) ∧
  (NewJobOK n s nj → NewJobRep s nj → NewJobRep s' nj)

/-- The weaker bundle preserved by unrestricted kill processing, which may
re-report already-terminal jobs (dropping the reporting invariant). -/
def PresOutW (cfg : Config) (n : Nat) (nj : Option JobTuple) (s s' : WState) : Prop :=
  WInv cfg n s' ∧ (NewJobOK n s nj → NewJobOK n s' nj)

/-- First unfolding helper: an operation that succeeds on its first invocation
makes `with_retries` return that value after exactly one invocation. -/
theorem with_retries_succ0 {α : Type} {op : Nat → Outcome α} {a : α}
    (h : op 0 = .success a) : with_retries op = (.ok a, 1) := by
  simp [with_retries, retryGo, h]

/-- C3: the retry wrapper returns the first successful result; when every
invocation raises a scheduler-command failure it makes exactly 3 invocations
and re-raises the last failure unchanged; failing twice then succeeding means
success after exactly 3 invocations; a non-`CalledProcessError` raise
propagates after the first invocation, with no retry. -/
theorem with_retries_contract {α : Type} (op : Nat → Outcome α) (a : α)
    (rc : Nat → Int) (out : Nat → String) (e : PyErr) :
    ((∀ i, op i = .raise (.calledProcessError (rc i) (out i))) →
      with_retries op = (.error (.calledProcessError (rc 2) (out 2)), 3)) ∧
    (op 0 = .raise (.calledProcessError (rc 0) (out 0)) →
      op 1 = .raise (.calledProcessError (rc 1) (out 1)) →
      op 2 = .success a →
      with_retries op = (.ok a, 3)) ∧
    (op 0 = .raise e → isCPE e = false → with_retries op = (.error e, 1)) ∧
    (op 0 = .success a → with_retries op = (.ok a, 1)) := by
  refine ⟨fun h => ?_, fun h0 h1 h2 => ?_, fun h0 hcpe => ?_, fun h0 => ?_⟩
  · simp [with_retries, retryGo, h 0, h 1, h 2, isCPE]
  · simp [with_retries, retryGo, h0, h1, h2, isCPE]
  · simp [with_retries, retryGo, h0, hcpe]
  · simp [with_retries, retryGo, h0]

/-- Witness for C3 at concrete stub drivers. -/
theorem with_retries_contract_witness :
    with_retries (fun i =>
        if i < 2 then Outcome.raise (PyErr.calledProcessError 1 "boom")
        else Outcome.success (42 : Nat)) = (Except.ok 42, 3) ∧
    with_retries (fun _ =>
        (Outcome.raise (PyErr.calledProcessError 1 "boom") : Outcome Nat)) =
      (Except.error (PyErr.calledProcessError 1 "boom"), 3) ∧
    with_retries (fun _ => (Outcome.raise PyErr.keyError : Outcome Nat)) =
      (Except.error PyErr.keyError, 1) ∧
    with_retries (fun _ => Outcome.success (7 : Nat)) = (Except.ok 7, 1) := by
  refine ⟨?_, ?_, ?_, ?_⟩
  · exact (with_retries_contract _ 42 (fun _ => 1) (fun _ => "boom")
      PyErr.keyError).2.1 rfl rfl rfl
  · exact (with_retries_contract _ 42 (fun _ => 1) (fun _ => "boom")
      PyErr.keyError).1 (fun _ => rfl)
  · exact (with_retries_contract _ 42 (fun _ => 1) (fun _ => "boom")
      PyErr.keyError).2.2.1 rfl rfl
  · exact (with_retries_contract _ 7 (fun _ => 1) (fun _ => "boom")
      PyErr.keyError).2.2.2 rfl

/-- C10: on dequeuing `(jobID, exitCode)` from the updated-job queue,
`getUpdatedBatchJob` removes `jobID` from the issued set and returns the
triple; when the ID is not in the issued set the `set.remove` raises
`KeyError` instead of returning.  (The local collaborator returned nothing.) -/
theorem getUpdatedBatchJob_removes_issued (s : BossUpdState) (jobID : Nat)
    (retcode : Int) (rest : List (Nat × Int))
    (h : s.updatedQueue = (jobID, retcode) :: rest) :
    (jobID ∈ s.currentJobs →
      getUpdatedBatchJob none s =
        .ok (some (jobID, retcode, none), ⟨s.currentJobs.erase jobID, rest⟩)) ∧
    (jobID ∉ s.currentJobs →
      getUpdatedBatchJob none s = .error PyErr.keyError) := by
  constructor
  · intro hmem
    simp [getUpdatedBatchJob, h, hmem]
  · intro hmem
    simp [getUpdatedBatchJob, h, hmem]

/-- Witness for C10: a queue item for issued job 4 is returned with 4 removed;
the same item with an empty issued set raises. -/
theorem getUpdatedBatchJob_removes_issued_witness :
    getUpdatedBatchJob none ⟨{4}, [(4, 0)]⟩ =
      .ok (some (4, 0, none), ⟨({4} : Finset Nat).erase 4, []⟩) ∧
    getUpdatedBatchJob none ⟨∅, [(4, 0)]⟩ = .error PyErr.keyError := by
  constructor
  · exact (getUpdatedBatchJob_removes_issued ⟨{4}, [(4, 0)]⟩ 4 0 [] rfl).1 (by decide)
  · exact (getUpdatedBatchJob_removes_issued ⟨∅, [(4, 0)]⟩ 4 0 [] rfl).2 (by decide)

/-- C9: `getRunningBatchJobIDs` caches the snapshot object and then merges the
local running IDs into that same object, so the cache ends up holding the
merged set; a second call inside the polling window returns a "cached" set
that still contains the first call's local IDs (and performs no new remote
listing — the invocation counter stays at `listCalls + 1`). -/
theorem getRunningBatchJobIDs_cache_mutation (d : Driver) (wait t1 t2 : Int)
    (L1 L2 R : Finset Nat) (bs : BossRunState)
    (hts : bs.ts = none) (hlist : d.listOutcome bs.listCalls = .success R)
    (hvalid : t2 - t1 < wait) :
    ∃ s1, getRunningBatchJobIDs d wait t1 L1 bs = .ok (R ∪ L1, s1) ∧
      s1.cache = R ∪ L1 ∧ s1.ts = some t1 ∧ s1.listCalls = bs.listCalls + 1 ∧
      getRunningBatchJobIDs d wait t2 L2 s1 =
        .ok (R ∪ L1 ∪ L2, ⟨R ∪ L1 ∪ L2, some t1, bs.listCalls + 1⟩) ∧
      L1 ⊆ R ∪ L1 ∪ L2 := by
  have hw : with_retries (fun i => d.listOutcome (bs.listCalls + i)) =
      (Except.ok R, 1) :=
    with_retries_succ0 (by simpa using hlist)
  refine ⟨⟨R ∪ L1, some t1, bs.listCalls + 1⟩, ?_, rfl, rfl, rfl, ?_, ?_⟩
  · simp [getRunningBatchJobIDs, hts, hw]
  · simp [getRunningBatchJobIDs, hvalid]
  · intro x hx
    exact Finset.mem_union_left _ (Finset.mem_union_right _ hx)

/-- Witness for C9: remote snapshot `{10}`, local IDs `{1}` then `{2}`;
the second call's result still contains `1`. -/
theorem getRunningBatchJobIDs_cache_mutation_witness :
    ∃ s1, getRunningBatchJobIDs c9d 5 0 {1} ⟨∅, none, 0⟩ = .ok ({10} ∪ {1}, s1) ∧
      s1.cache = {10} ∪ {1} ∧ s1.ts = some 0 ∧ s1.listCalls = 1 ∧
      getRunningBatchJobIDs c9d 5 1 {2} s1 =
        .ok ({10} ∪ {1} ∪ {2}, ⟨{10} ∪ {1} ∪ {2}, some 0, 1⟩) ∧
      ({1} : Finset Nat) ⊆ {10} ∪ {1} ∪ {2} :=
  getRunningBatchJobIDs_cache_mutation c9d 5 0 1 {1} {2} {10} ⟨∅, none, 0⟩
    rfl rfl (by decide)

/-- C5 (code evaluated at the failing input): a kill request for job 5, which
is only on the waiting list, is reported on the killed-confirmation queue and
never reaches the driver's kill operation — but the waiting-list entry is NOT
removed, because `jobID in self.waitingJobs` compares the integer ID against
`(jobID, cpu, memory, command)` tuples and is always false.  The job will be
submitted later anyway. -/
theorem killJobs_waiting_entry_not_removed :
    kresIsDone (killJobs d0 1 c5s) = true ∧
    (kresState (killJobs d0 1 c5s)).waitingJobs = [⟨5, 1, 2, "cmd"⟩] ∧
    (kresState (killJobs d0 1 c5s)).killedJobsQueue = [5] ∧
    (kresState (killJobs d0 1 c5s)).killLog = [] := by
  refine ⟨rfl, rfl, rfl, rfl⟩

/-- C1 counterexample: with the benign driver, job 0 is issued, submitted and
completes during the first worker iteration (one completion report on the
updated-job queue); a later kill request for the now-terminal ID 0 is
leniently confirmed, so ID 0 is reported in BOTH terminal categories. -/
theorem completed_job_reported_killed_too :
    0 ∈ ((runEvents d0 cfg1 initSys c1evs).w.updatedJobsQueue.map Prod.fst) ∧
    0 ∈ (runEvents d0 cfg1 initSys c1evs).w.killedJobsQueue := by
  constructor <;> decide

/-- C7 counterexample: jobs 0 and 1 are queued ahead of the shutdown
sentinel; with ceiling 1 and a never-finishing job 0, the worker dequeues the
sentinel and stops immediately, leaving job 1 in the waiting list forever
unsubmitted (the submission log holds only job 0). -/
theorem sentinel_exit_abandons_waiting :
    runOutIsStopped (runLoop dPendEver cfg1 (fun _ => 0) 1 5 0 c7s0) = true ∧
    (runOutState (runLoop dPendEver cfg1 (fun _ => 0) 1 5 0 c7s0)).waitingJobs =
      [⟨1, 1, 1, "b"⟩] ∧
    (runOutState (runLoop dPendEver cfg1 (fun _ => 0) 1 5 0 c7s0)).submitLog = [0] := by
  refine ⟨rfl, rfl, rfl⟩

/-- Deleting a key leaves other keys' lookups unchanged. -/
theorem dictGet_del_ne (l : List (Nat × (Nat × Option Nat))) (k k' : Nat)
    (h : k' ≠ k) : dictGet (dictDel l k) k' = dictGet l k' := by
  induction l with
  | nil => rfl
  | cons p rest ih =>
    obtain ⟨k0, v0⟩ := p
    by_cases hp : k0 = k
    · subst hp
      have h0 : ¬ k0 = k' := fun hk => h (hk ▸ rfl)
      simp only [dictDel] at *
      simp [dictGet, h0] at *
      exact ih
    · by_cases he : k0 = k'
      · simp [dictDel, dictGet, hp, he, h]
      · simp only [dictDel] at *
        simp [dictGet, hp, he] at *
        exact ih

/-- Deleting a key removes it. -/
theorem dictGet_del_self (l : List (Nat × (Nat × Option Nat))) (k : Nat) :
    dictGet (dictDel l k) k = none := by
  induction l with
  | nil => rfl
  | cons p rest ih =>
    obtain ⟨k0, v0⟩ := p
    by_cases hp : k0 = k
    · simp only [dictDel] at *
      simp [hp] at *
      exact ih
    · simp only [dictDel] at *
      simp [dictGet, hp] at *
      exact ih

/-- A job with a handle-map entry always renders to some batch-system ID. -/
theorem getBatchSystemID_of_some (s : WState) (j : Nat) (v : Nat × Option Nat)
    (h : dictGet s.batchJobIDs j = some v) : ∃ b, getBatchSystemID s j = .ok b := by
  obtain ⟨bid, task⟩ := v
  cases task <;> simp [getBatchSystemID, h]

/-- `forgetJob` on a tracked job removes it from the running set and the
handle map. -/
theorem forgetJob_run (s : WState) (j : Nat) (hr : j ∈ s.runningJobs)
    (hd : (dictGet s.batchJobIDs j).isSome) :
    forgetJob s j = .ok () { s with runningJobs := s.runningJobs.erase j,
                                    batchJobIDs := dictDel s.batchJobIDs j } := by
  simp [forgetJob, hr, hd]

/-- The completion-polling loop, when the driver answers every exit query on
the first attempt and every polled job is tracked, returns normally and makes
exactly one remote query per polled job, without touching the cache fields. -/
theorem checkOnJobsLoop_count (d : Driver)
    (hq : ∀ b k, ∃ v, d.exitOutcome b k = Outcome.success v) (l : List Nat) :
    ∀ (act : Bool) (s : WState), l.Nodup →
      (∀ j ∈ l, j ∈ s.runningJobs) →
      (∀ j ∈ l, (dictGet s.batchJobIDs j).isSome) →
      ∃ act1 s1, checkOnJobsLoop d l act s = .ok act1 s1 ∧
        s1.queryLog.length = s.queryLog.length + l.length ∧
        s1.chkCache = s.chkCache ∧ s1.chkTs = s.chkTs := by
  induction l with
  | nil =>
    intro act s _ _ _
    exact ⟨act, s, rfl, by simp [checkOnJobsLoop], rfl, rfl⟩
  | cons j rest ih =>
    intro act s hnd hrun hdict
    obtain ⟨v, hv⟩ := Option.isSome_iff_exists.mp (hdict j (by simp))
    obtain ⟨bid, hbid⟩ := getBatchSystemID_of_some s j v hv
    obtain ⟨ec, hec⟩ := hq bid (s.exitCalls bid)
    have hw : with_retries (fun i => d.exitOutcome bid (s.exitCalls bid + i)) =
        (Except.ok ec, 1) := with_retries_succ0 (by simpa using hec)
    have hndr : rest.Nodup := hnd.of_cons
    have hjr : j ∉ rest := by
      intro hmem
      exact (List.nodup_cons.mp hnd).1 hmem
    cases ec with
    | none =>
      obtain ⟨act1, s2, heq, hlen, hc, ht⟩ :=
        ih act
          { s with exitCalls := bumpCalls s.exitCalls bid 1
                 , queryLog := s.queryLog ++ List.replicate 1 bid }
          hndr (fun j' hj' => hrun j' (by simp [hj'])) (fun j' hj' => hdict j' (by simp [hj']))
      refine ⟨act1, s2, ?_, ?_, hc, ht⟩
      · simp only [checkOnJobsLoop, hbid, hw]
        exact heq
      · simp at hlen
        simp [hlen]
        omega
    | some code =>
      have hr : j ∈ s.runningJobs := hrun j (by simp)
      have hforget := forgetJob_run
        { s with exitCalls := bumpCalls s.exitCalls bid 1
               , queryLog := s.queryLog ++ List.replicate 1 bid
               , updatedJobsQueue := s.updatedJobsQueue ++ [(j, code)] }
        j hr (by simpa using Option.isSome_iff_exists.mpr ⟨v, hv⟩)
      obtain ⟨act1, s2, heq, hlen, hc, ht⟩ :=
        ih true
          { s with exitCalls := bumpCalls s.exitCalls bid 1
                 , queryLog := s.queryLog ++ List.replicate 1 bid
                 , updatedJobsQueue := s.updatedJobsQueue ++ [(j, code)]
                 , runningJobs := s.runningJobs.erase j
                 , batchJobIDs := dictDel s.batchJobIDs j }
          hndr
          (fun j' hj' => by
            have hne : j' ≠ j := fun h => hjr (h ▸ hj')
            exact (List.mem_erase_of_ne hne).mpr (hrun j' (by simp [hj'])))
          (fun j' hj' => by
            have hne : j' ≠ j := fun h => hjr (h ▸ hj')
            simpa [dictGet_del_ne _ _ _ hne] using hdict j' (by simp [hj']))
      refine ⟨act1, s2, ?_, ?_, hc, ht⟩
      · simp only [checkOnJobsLoop, hbid, hw]
        rw [hforget]
        exact heq
      · simp at hlen
        simp [hlen]
        omega

/-- C8: both poll caches throttle remote queries.  A `checkOnJobs` call while
`now - stamp < statePollingWait` returns the cached flag and changes nothing
(no exit-code query); an expired or never-filled cache triggers one exit-code
query per running job and stores the new flag and stamp before returning.
A `getRunningBatchJobIDs` call inside the window performs no remote listing
(the listing-invocation counter is unchanged) and serves the cached snapshot
(merged with the local IDs); outside the window it performs the remote
listing and stores the refreshed snapshot and stamp before returning. -/
theorem poll_cache_throttle :
    (∀ (d : Driver) (cfg : Config) (now ts : Int) (c : Bool) (s : WState),
      s.chkTs = some ts → s.chkCache = some c → now - ts < cfg.statePollingWait →
      checkOnJobs d cfg now s = .ok c s) ∧
    (∀ (d : Driver) (cfg : Config) (now : Int) (s : WState),
      s.runningJobs.Nodup →
      (∀ j ∈ s.runningJobs, (dictGet s.batchJobIDs j).isSome) →
      (∀ b k, ∃ v, d.exitOutcome b k = Outcome.success v) →
      (s.chkTs = none ∨ ∃ ts, s.chkTs = some ts ∧ cfg.statePollingWait ≤ now - ts) →
      ∃ act s1, checkOnJobs d cfg now s = .ok act s1 ∧
        s1.chkCache = some act ∧ s1.chkTs = some now ∧
        s1.queryLog.length = s.queryLog.length + s.runningJobs.length) ∧
    (∀ (d : Driver) (wait now t : Int) (L : Finset Nat) (bs : BossRunState),
      bs.ts = some t → now - t < wait →
      getRunningBatchJobIDs d wait now L bs =
        .ok (bs.cache ∪ L, { bs with cache := bs.cache ∪ L })) ∧
    (∀ (d : Driver) (wait now : Int) (L R : Finset Nat) (bs : BossRunState),
      (bs.ts = none ∨ ∃ t, bs.ts = some t ∧ wait ≤ now - t) →
      d.listOutcome bs.listCalls = .success R →
      getRunningBatchJobIDs d wait now L bs =
        .ok (R ∪ L, ⟨R ∪ L, some now, bs.listCalls + 1⟩)) := by
  refine ⟨?_, ?_, ?_, ?_⟩
  · intro d cfg now ts c s hts hc hvalid
    simp [checkOnJobs, hts, hvalid, hc]
  · intro d cfg now s hnd hdict hq hmiss
    obtain ⟨act1, s1, heq, hlen, hcc, hct⟩ :=
      checkOnJobsLoop_count d hq s.runningJobs false s hnd (fun _ h => h) hdict
    have hres : checkOnJobsRefresh d now s =
        .ok act1 { s1 with chkCache := some act1, chkTs := some now } := by
      simp [checkOnJobsRefresh, heq]
    rcases hmiss with hnone | ⟨ts, hts, hge⟩
    · refine ⟨act1, { s1 with chkCache := some act1, chkTs := some now },
        ?_, rfl, rfl, by simpa using hlen⟩
      simp [checkOnJobs, hnone, hres]
    · refine ⟨act1, { s1 with chkCache := some act1, chkTs := some now },
        ?_, rfl, rfl, by simpa using hlen⟩
      simp [checkOnJobs, hts, hres, not_lt.mpr hge]
  · intro d wait now t L bs hts hvalid
    simp [getRunningBatchJobIDs, hts, hvalid]
  · intro d wait now L R bs hmiss hlist
    have hw : with_retries (fun i => d.listOutcome (bs.listCalls + i)) =
        (Except.ok R, 1) := with_retries_succ0 (by simpa using hlist)
    rcases hmiss with hnone | ⟨t, hts, hge⟩
    · simp [getRunningBatchJobIDs, hnone, hw]
    · simp [getRunningBatchJobIDs, hts, hw, not_lt.mpr hge]

/-- Witness for C8 at concrete states: a fresh-stamp hit for both caches and a
never-filled refresh for both. -/
theorem poll_cache_throttle_witness :
    checkOnJobs d0 ⟨1, 5⟩ 0 { initW with chkTs := some 0, chkCache := some true } =
      .ok true { initW with chkTs := some 0, chkCache := some true } ∧
    (∃ act s1, checkOnJobs d0 cfg1 0 c8s = .ok act s1 ∧
      s1.chkCache = some act ∧ s1.chkTs = some 0 ∧
      s1.queryLog.length = c8s.queryLog.length + c8s.runningJobs.length) ∧
    getRunningBatchJobIDs d0 5 0 {1} ⟨{10}, some 0, 1⟩ =
      .ok ({10} ∪ {1}, ⟨({10} : Finset Nat) ∪ {1}, some 0, 1⟩) ∧
    getRunningBatchJobIDs c9d 5 0 {1} ⟨∅, none, 0⟩ =
      .ok ({10} ∪ {1}, ⟨({10} : Finset Nat) ∪ {1}, some 0, 1⟩) := by
  refine ⟨?_, ?_, ?_, ?_⟩
  · exact poll_cache_throttle.1 d0 ⟨1, 5⟩ 0 0 true _ rfl rfl (by decide)
  · exact poll_cache_throttle.2.1 d0 cfg1 0 c8s (by decide)
      (by decide) (fun b k => ⟨some 0, rfl⟩) (Or.inl rfl)
  · exact poll_cache_throttle.2.2.1 d0 5 0 0 {1} ⟨{10}, some 0, 1⟩ rfl (by decide)
  · exact poll_cache_throttle.2.2.2 c9d 5 0 {1} {10} ⟨∅, none, 0⟩ (Or.inl rfl) rfl

/-- Phase 1 of `killJobs` on a batch of running jobs: each gets exactly one
driver `killJob` call, nothing is reported yet, and the pending list is the
whole batch. -/
theorem killPhase1_all_running (l : List Nat) :
    ∀ (kl : List Nat) (s : WState), (∀ j ∈ l, j ∈ s.runningJobs) →
      killPhase1 l kl s = (kl, { s with killLog := s.killLog ++ l }) := by
  induction l with
  | nil =>
    intro kl s _
    simp [killPhase1]
  | cons j rest ih =>
    intro kl s h
    have hj : j ∈ s.runningJobs := h j (by simp)
    rw [killPhase1, if_pos hj,
      ih kl { s with killLog := s.killLog ++ [j] } (fun j' hj' => h j' (by simp [hj']))]
    simp

/-- The kill-confirmation loop on a single pending job whose exit-code query
stays pending for `K` invocations and then reports exit code `code`: with
more than `K` rounds of fuel it returns normally, having reported the job
killed and forgotten it; with at most `K` rounds it does not return (the real
loop would still be spinning), having reported nothing. -/
theorem killConfirm_single (d : Driver) (jobID bID : Nat) (code : Int) :
    ∀ (fuel K : Nat) (s : WState),
      dictGet s.batchJobIDs jobID = some (bID, none) →
      jobID ∈ s.runningJobs → s.runningJobs.Nodup →
      (∀ k < K, d.exitOutcome (toString bID) (s.exitCalls (toString bID) + k) =
        Outcome.success none) →
      d.exitOutcome (toString bID) (s.exitCalls (toString bID) + K) =
        Outcome.success (some code) →
      (K < fuel → ∃ s1, killConfirmLoop d fuel [jobID] s = .done true s1 ∧
        s1.killedJobsQueue = s.killedJobsQueue ++ [jobID] ∧
        jobID ∉ s1.runningJobs ∧ dictGet s1.batchJobIDs jobID = none ∧
        s1.killLog = s.killLog ∧ s1.updatedJobsQueue = s.updatedJobsQueue) ∧
      (fuel ≤ K → ∃ s2, killConfirmLoop d fuel [jobID] s = .hung s2 ∧
        s2.killedJobsQueue = s.killedJobsQueue ∧ s2.killLog = s.killLog ∧
        jobID ∈ s2.runningJobs) := by
  intro fuel
  induction fuel with
  | zero =>
    intro K s _ hr _ _ _
    exact ⟨fun h => absurd h (by omega), fun _ => ⟨s, rfl, rfl, rfl, hr⟩⟩
  | succ fuel ih =>
    intro K s hdict hr hnd hpend hdone
    have hbid : getBatchSystemID s jobID = .ok (toString bID) := by
      simp [getBatchSystemID, hdict]
    cases K with
    | zero =>
      have hw : with_retries
          (fun i => d.exitOutcome (toString bID) (s.exitCalls (toString bID) + i)) =
          (Except.ok (some code), 1) := with_retries_succ0 (by simpa using hdone)
      have hforget := forgetJob_run
        { s with exitCalls := bumpCalls s.exitCalls (toString bID) 1
               , queryLog := s.queryLog ++ List.replicate 1 (toString bID)
               , killedJobsQueue := s.killedJobsQueue ++ [jobID] }
        jobID hr (by simp [hdict])
      refine ⟨fun _ => ?_, fun h => absurd h (by omega)⟩
      refine ⟨{ s with exitCalls := bumpCalls s.exitCalls (toString bID) 1
                     , queryLog := s.queryLog ++ List.replicate 1 (toString bID)
                     , killedJobsQueue := s.killedJobsQueue ++ [jobID]
                     , runningJobs := s.runningJobs.erase jobID
                     , batchJobIDs := dictDel s.batchJobIDs jobID },
        ?_, rfl, ?_, ?_, rfl, rfl⟩
      · show killConfirmLoop d (fuel + 1) [jobID] s = _
        rw [show killConfirmLoop d (fuel + 1) [jobID] s =
            match killConfirmRound d [jobID] [jobID] s with
            | .err e s1 => .err e s1
            | .ok kl1 s1 => killConfirmLoop d fuel kl1 s1 from rfl]
        simp only [killConfirmRound, hbid, hw]
        rw [hforget]
        simp [killConfirmRound, List.erase_cons_head, killConfirmLoop]
      · exact fun hmem => (List.Nodup.mem_erase_iff hnd).mp hmem |>.1 rfl
      · exact dictGet_del_self _ _
    | succ K' =>
      have hw : with_retries
          (fun i => d.exitOutcome (toString bID) (s.exitCalls (toString bID) + i)) =
          (Except.ok none, 1) :=
        with_retries_succ0 (by simpa using hpend 0 (by omega))
      have hstep : killConfirmLoop d (fuel + 1) [jobID] s =
          killConfirmLoop d fuel [jobID]
            { s with exitCalls := bumpCalls s.exitCalls (toString bID) 1
                   , queryLog := s.queryLog ++ List.replicate 1 (toString bID) } := by
        rw [show killConfirmLoop d (fuel + 1) [jobID] s =
            match killConfirmRound d [jobID] [jobID] s with
            | .err e s1 => .err e s1
            | .ok kl1 s1 => killConfirmLoop d fuel kl1 s1 from rfl]
        simp only [killConfirmRound, hbid, hw]
      set s1 : WState :=
        { s with exitCalls := bumpCalls s.exitCalls (toString bID) 1
               , queryLog := s.queryLog ++ List.replicate 1 (toString bID) } with hs1
      have hcalls : s1.exitCalls (toString bID) = s.exitCalls (toString bID) + 1 := by
        simp [hs1, bumpCalls]
      have hpend' : ∀ k < K', d.exitOutcome (toString bID)
          (s1.exitCalls (toString bID) + k) = Outcome.success none := by
        intro k hk
        rw [hcalls, show s.exitCalls (toString bID) + 1 + k =
          s.exitCalls (toString bID) + (k + 1) from by omega]
        exact hpend (k + 1) (by omega)
      have hdone' : d.exitOutcome (toString bID)
          (s1.exitCalls (toString bID) + K') = Outcome.success (some code) := by
        rw [hcalls, show s.exitCalls (toString bID) + 1 + K' =
          s.exitCalls (toString bID) + (K' + 1) from by omega]
        exact hdone
      obtain ⟨hdn, hhg⟩ := ih K' s1 hdict hr hnd hpend' hdone'
      constructor
      · intro hlt
        obtain ⟨sf, hf, h1, h2, h3, h4, h5⟩ := hdn (by omega)
        exact ⟨sf, by rw [hstep]; exact hf, h1, h2, h3, h4, h5⟩
      · intro hge
        obtain ⟨sf, hf, h1, h2, h3⟩ := hhg (by omega)
        exact ⟨sf, by rw [hstep]; exact hf, h1, h2, h3⟩

/-- C4: a kill request naming a running job causes exactly one driver
`killJob` invocation, and `killJobs` does not return until the exit-code
query for that job comes back non-pending: when the query stays pending for
`K` invocations and then answers, any fuel above `K` rounds yields a normal
return with the ID reported on the killed-confirmation queue and removed from
the running set and the handle map, while any fuel of at most `K` rounds
leaves the loop unreturned (`hung`) with the ID still running and nothing
reported. -/
theorem kill_running_job_contract (d : Driver) (fuel K : Nat) (s : WState)
    (jobID bID : Nat) (code : Int)
    (hq : s.killQueue = [jobID])
    (hnd : s.runningJobs.Nodup)
    (hr : jobID ∈ s.runningJobs)
    (hdict : dictGet s.batchJobIDs jobID = some (bID, none))
    (hpend : ∀ k < K, d.exitOutcome (toString bID) (s.exitCalls (toString bID) + k) =
      Outcome.success none)
    (hdone : d.exitOutcome (toString bID) (s.exitCalls (toString bID) + K) =
      Outcome.success (some code)) :
    (K < fuel → ∃ s1, killJobs d fuel s = .done true s1 ∧
      s1.killLog = s.killLog ++ [jobID] ∧
      s1.killedJobsQueue = s.killedJobsQueue ++ [jobID] ∧
      jobID ∉ s1.runningJobs ∧ dictGet s1.batchJobIDs jobID = none) ∧
    (fuel ≤ K → ∃ s2, killJobs d fuel s = .hung s2 ∧
      s2.killLog = s.killLog ++ [jobID] ∧
      s2.killedJobsQueue = s.killedJobsQueue ∧ jobID ∈ s2.runningJobs) := by
  have hphase := killPhase1_all_running [jobID] [jobID]
    { s with killQueue := [] } (by simpa using hr)
  have hkill : killJobs d fuel s =
      killConfirmLoop d fuel [jobID]
        { s with killQueue := [], killLog := s.killLog ++ [jobID] } := by
    rw [show killJobs d fuel s =
        (match s.killQueue with
         | [] => KRes.done false { s with killQueue := [] }
         | _ :: _ =>
           killConfirmLoop d fuel
             (killPhase1 s.killQueue s.killQueue { s with killQueue := [] }).1
             (killPhase1 s.killQueue s.killQueue { s with killQueue := [] }).2)
      from rfl]
    rw [hq]
    rw [show (killPhase1 [jobID] [jobID] { s with killQueue := [] }) =
      ([jobID], { s with killQueue := [], killLog := s.killLog ++ [jobID] })
      from hphase]
  obtain ⟨hdn, hhg⟩ := killConfirm_single d jobID bID code fuel K
    { s with killQueue := [], killLog := s.killLog ++ [jobID] }
    hdict hr hnd hpend hdone
  constructor
  · intro hlt
    obtain ⟨s1, hf, h1, h2, h3, h4, _⟩ := hdn hlt
    exact ⟨s1, by rw [hkill]; exact hf, by simpa using h4, h1, h2, h3⟩
  · intro hge
    obtain ⟨s2, hf, h1, h2, h3⟩ := hhg hge
    exact ⟨s2, by rw [hkill]; exact hf, by simpa using h2, h1, h3⟩

/-- Witness for C4: job 5 running under batch handle 9, exit query pending
once then exit code 0; fuel 3 confirms the kill, fuel 1 leaves the loop
spinning. -/
theorem kill_running_job_contract_witness :
    (∃ s1, killJobs dPendOnce 3 c4s = .done true s1 ∧
      s1.killLog = c4s.killLog ++ [5] ∧
      s1.killedJobsQueue = c4s.killedJobsQueue ++ [5] ∧
      5 ∉ s1.runningJobs ∧ dictGet s1.batchJobIDs 5 = none) ∧
    (∃ s2, killJobs dPendOnce 1 c4s = .hung s2 ∧
      s2.killLog = c4s.killLog ++ [5] ∧
      s2.killedJobsQueue = c4s.killedJobsQueue ∧ 5 ∈ s2.runningJobs) := by
  constructor
  · exact (kill_running_job_contract dPendOnce 3 1 c4s 5 9 0 rfl (by decide)
      (by decide) rfl
      (fun k hk => by
        interval_cases k
        · rfl)
      rfl).1 (by omega)
  · exact (kill_running_job_contract dPendOnce 1 1 c4s 5 9 0 rfl (by decide)
      (by decide) rfl
      (fun k hk => by
        interval_cases k
        · rfl)
      rfl).2 (by omega)

/-- The post-dequeue part of a worker iteration never breaks out of the loop:
only the sentinel dequeue produces `stopped`. -/
theorem iterBody_ne_stopped (d : Driver) (cfg : Config) (now : Int) (kfuel : Nat)
    (nj : Option JobTuple) (s s' : WState) :
    iterBody d cfg now kfuel nj s ≠ .stopped s' := by
  unfold iterBody
  cases hk : killJobs d kfuel s with
  | err e s1 => simp
  | hung s1 => simp
  | done a s1 =>
    cases hc : createJobs d cfg nj s1 with
    | err e s2 => simp [hc]
    | ok b s2 =>
      cases hco : checkOnJobs d cfg now s2 with
      | err e s3 => simp [hc, hco]
      | ok c s3 => simp [hc, hco]

/-- C7 (amended): the sentinel on the new-job queue is the only condition
under which the worker loop terminates, but termination is immediate: an
iteration stops exactly when the sentinel is at the head of the new-job
queue, and the exit state is the entry state with just the sentinel popped —
no kill processing, no admission and no polling happen after the dequeue, so
jobs still in the waiting list at sentinel time are never submitted. -/
theorem sentinel_only_and_immediate_exit (d : Driver) (cfg : Config) (now : Int)
    (kfuel : Nat) (tf : Nat → Int) :
    (∀ s s', iterOnce d cfg now kfuel s = .stopped s' ↔
      (s.newJobsQueue.head? = some none ∧
        s' = { s with newJobsQueue := s.newJobsQueue.tail })) ∧
    (∀ fuel i s s', runLoop d cfg tf kfuel fuel i s = .stopped s' →
      ∃ j s0, iterOnce d cfg (tf j) kfuel s0 = .stopped s' ∧
        s0.newJobsQueue.head? = some none ∧
        s' = { s0 with newJobsQueue := s0.newJobsQueue.tail }) := by
  have hiff : ∀ (t : Int) (s s' : WState),
      iterOnce d cfg t kfuel s = .stopped s' ↔
      (s.newJobsQueue.head? = some none ∧
        s' = { s with newJobsQueue := s.newJobsQueue.tail }) := by
    intro t s s'
    constructor
    · intro h
      unfold iterOnce at h
      cases hq : s.newJobsQueue with
      | nil =>
        rw [hq] at h
        exact absurd h (iterBody_ne_stopped d cfg t kfuel none s s')
      | cons item rest =>
        rw [hq] at h
        cases item with
        | none =>
          have hs : { s with newJobsQueue := rest } = s' := by
            cases h
            rfl
          refine ⟨by simp [hq], ?_⟩
          rw [← hs]
          simp [hq]
        | some j =>
          exact absurd h (iterBody_ne_stopped d cfg t kfuel (some j) _ s')
    · rintro ⟨h1, h2⟩
      cases hq : s.newJobsQueue with
      | nil =>
        rw [hq] at h1
        cases h1
      | cons item rest =>
        rw [hq] at h1
        have hitem : item = none := by simpa using h1
        subst hitem
        subst h2
        unfold iterOnce
        simp [hq]
  refine ⟨hiff now, ?_⟩
  intro fuel
  induction fuel with
  | zero =>
    intro i s s' h
    simp [runLoop] at h
  | succ fuel ih =>
    intro i s s' h
    rw [show runLoop d cfg tf kfuel (fuel + 1) i s =
        (match iterOnce d cfg (tf i) kfuel s with
         | .cont s1 => runLoop d cfg tf kfuel fuel (i + 1) s1
         | .stopped s1 => .stopped s1
         | .err e s1 => .crashed e s1
         | .hung s1 => .hung s1) from rfl] at h
    cases hio : iterOnce d cfg (tf i) kfuel s with
    | cont s1 =>
      rw [hio] at h
      exact ih (i + 1) s1 s' h
    | stopped s1 =>
      rw [hio] at h
      have hs1 : s1 = s' := by
        injection h
      subst hs1
      obtain ⟨hh, hs⟩ := (hiff (tf i) s s1).mp hio
      exact ⟨i, s, hio, hh, hs⟩
    | err e s1 =>
      rw [hio] at h
      cases h
    | hung s1 =>
      rw [hio] at h
      cases h

/-- Witness for C7: a queue holding just the sentinel stops the iteration with
only the pop applied; the counterexample run's stop state is reached by a
sentinel dequeue. -/
theorem sentinel_only_and_immediate_exit_witness :
    iterOnce d0 cfg1 0 1 c7w0 =
      IterOut.stopped { c7w0 with newJobsQueue := c7w0.newJobsQueue.tail } ∧
    (∃ (s0 : WState), iterOnce dPendEver cfg1 0 1 s0 =
        .stopped (runOutState (runLoop dPendEver cfg1 (fun _ => 0) 1 5 0 c7s0)) ∧
      s0.newJobsQueue.head? = some none ∧
      runOutState (runLoop dPendEver cfg1 (fun _ => 0) 1 5 0 c7s0) =
        { s0 with newJobsQueue := s0.newJobsQueue.tail }) := by
  constructor
  · exact ((sentinel_only_and_immediate_exit d0 cfg1 0 1 (fun _ => 0)).1
      c7w0 { c7w0 with newJobsQueue := c7w0.newJobsQueue.tail }).mpr ⟨rfl, rfl⟩
  · obtain ⟨j, s0, h1, h2, h3⟩ :=
      (sentinel_only_and_immediate_exit dPendEver cfg1 0 1 (fun _ => 0)).2
        5 0 c7s0 (runOutState (runLoop dPendEver cfg1 (fun _ => 0) 1 5 0 c7s0)) rfl
    exact ⟨s0, h1, h2, h3⟩

/-- The always-false membership test of `killJobs` (int against tuples). -/
theorem any_idEq_false (l : List JobTuple) (j : Nat) :
    (l.any fun w => idEqWaitingEntry j w) = false := by
  simp [idEqWaitingEntry]

/-- A key is in the handle map exactly when its lookup succeeds. -/
theorem mem_keysOf_iff_isSome (l : List (Nat × (Nat × Option Nat))) (k : Nat) :
    k ∈ keysOf l ↔ (dictGet l k).isSome := by
  induction l with
  | nil => simp [keysOf, dictGet]
  | cons p rest ih =>
    obtain ⟨k0, v0⟩ := p
    by_cases h : k0 = k
    · subst h
      simp [keysOf, dictGet]
    · rw [show keysOf ((k0, v0) :: rest) = k0 :: keysOf rest from rfl,
        show dictGet ((k0, v0) :: rest) k = dictGet rest k from by simp [dictGet, h],
        List.mem_cons]
      constructor
      · rintro (h' | hm)
        · exact absurd h'.symm h
        · exact ih.mp hm
      · intro hs
        exact Or.inr (ih.mpr hs)

/-- Key membership after a `dict` assignment. -/
theorem mem_keysOf_set (l : List (Nat × (Nat × Option Nat))) (k : Nat)
    (v : Nat × Option Nat) (k' : Nat) :
    k' ∈ keysOf (dictSet l k v) ↔ (k' = k ∨ k' ∈ keysOf l) := by
  simp only [dictSet, keysOf, List.map_cons, List.mem_cons]
  constructor
  · rintro (h | h)
    · exact Or.inl h
    · right
      obtain ⟨p, hp, hpk⟩ := List.mem_map.mp h
      exact List.mem_map.mpr ⟨p, (List.mem_filter.mp hp).1, hpk⟩
  · rintro (h | h)
    · exact Or.inl h
    · by_cases he : k' = k
      · exact Or.inl he
      · right
        obtain ⟨p, hp, hpk⟩ := List.mem_map.mp h
        refine List.mem_map.mpr ⟨p, List.mem_filter.mpr ⟨hp, ?_⟩, hpk⟩
        simp only [decide_eq_true_eq]
        rw [hpk]
        exact he

/-- Key membership after a `dict` deletion. -/
theorem mem_keysOf_del (l : List (Nat × (Nat × Option Nat))) (k k' : Nat) :
    k' ∈ keysOf (dictDel l k) ↔ (k' ∈ keysOf l ∧ k' ≠ k) := by
  simp only [dictDel, keysOf, List.mem_map, List.mem_filter, decide_eq_true_eq]
  constructor
  · rintro ⟨p, ⟨hp, hne⟩, hpk⟩
    refine ⟨⟨p, hp, hpk⟩, ?_⟩
    rw [← hpk]
    exact hne
  · rintro ⟨⟨p, hp, hpk⟩, hne⟩
    refine ⟨p, ⟨hp, ?_⟩, hpk⟩
    rw [hpk]
    exact hne

/-- A successful batch-ID rendering means the handle map has the job. -/
theorem getBatchSystemID_ok_isSome (s : WState) (j : Nat) (b : String)
    (h : getBatchSystemID s j = .ok b) : (dictGet s.batchJobIDs j).isSome := by
  unfold getBatchSystemID at h
  cases hd : dictGet s.batchJobIDs j with
  | none =>
    rw [hd] at h
    simp at h
  | some v => simp [hd]

/-- Appending a fresh element to a duplicate-free list. -/
theorem nodup_append_singleton (R : List Nat) (j : Nat) (h : R.Nodup) (hj : j ∉ R) :
    (R ++ [j]).Nodup := by
  simp [List.nodup_append, h, hj]

/-- Appending a strict upper bound keeps a list strictly sorted. -/
theorem sorted_append_lt (l : List Nat) (n : Nat) (hs : l.Sorted (· < ·))
    (hb : ∀ x ∈ l, x < n) : (l ++ [n]).Sorted (· < ·) := by
  show List.Pairwise (· < ·) (l ++ [n])
  rw [List.pairwise_append]
  refine ⟨hs, List.pairwise_singleton _ n, ?_⟩
  intro a ha b hb'
  rw [List.mem_singleton.mp hb']
  exact hb a ha

/-- Inserting an element between a lower part and an upper part keeps a list
strictly sorted. -/
theorem sorted_insert_between (A B : List Nat) (j : Nat)
    (hAB : (A ++ B).Sorted (· < ·)) (hA : ∀ x ∈ A, x < j) (hB : ∀ x ∈ B, j < x) :
    (A ++ j :: B).Sorted (· < ·) := by
  have hAB' : List.Pairwise (· < ·) (A ++ B) := hAB
  rw [List.pairwise_append] at hAB'
  obtain ⟨hA', hB', hcross⟩ := hAB'
  show List.Pairwise (· < ·) (A ++ j :: B)
  rw [List.pairwise_append]
  refine ⟨hA', ?_, ?_⟩
  · rw [List.pairwise_cons]
    exact ⟨hB, hB'⟩
  · intro a ha b hb
    rcases List.mem_cons.mp hb with rfl | hbB
    · exact hA a ha
    · exact hcross a ha b hbB

/-- The worker invariant only reads the queues, the waiting list, the running
set, the handle map and the submission log; it transports across any update
of the other fields. -/
theorem WInv_transport (cfg : Config) (n : Nat) (s s' : WState)
    (h1 : s'.runningJobs = s.runningJobs) (h2 : s'.batchJobIDs = s.batchJobIDs)
    (h3 : s'.waitingJobs = s.waitingJobs) (h4 : s'.newJobsQueue = s.newJobsQueue)
    (h5 : s'.submitLog = s.submitLog) (hI : WInv cfg n s) : WInv cfg n s' := by
  have hp : pipeline s' = pipeline s := by
    simp [pipeline, waitIDs, queueIDs, h3, h4, h5]
  have hwq : waitIDs s' ++ queueIDs s' = waitIDs s ++ queueIDs s := by
    simp [waitIDs, queueIDs, h3, h4]
  refine ⟨?_, ?_, ?_, ?_, ?_, ?_, ?_⟩
  · rw [h1]; exact hI.nodup_run
  · rw [h1]; exact hI.card_le
  · rw [hp]; exact hI.sorted
  · intro k
    rw [h2, h1]
    exact hI.keys_run k
  · intro k hk
    rw [h5]
    exact hI.run_sub k (by rwa [h1] at hk)
  · intro k hk
    rw [h1]
    exact hI.wq_run k (by rwa [hwq] at hk)
  · intro k hk
    exact hI.fresh k (by rwa [hp] at hk)

/-- The reporting invariant transports likewise. -/
theorem RepInv_transport (n : Nat) (s s' : WState)
    (h1 : s'.runningJobs = s.runningJobs)
    (h3 : s'.waitingJobs = s.waitingJobs) (h4 : s'.newJobsQueue = s.newJobsQueue)
    (h6 : s'.updatedJobsQueue = s.updatedJobsQueue)
    (h7 : s'.killedJobsQueue = s.killedJobsQueue)
    (hR : RepInv n s) : RepInv n s' := by
  have hr : reported s' = reported s := by
    simp [reported, h6, h7]
  have hwq : waitIDs s' ++ queueIDs s' = waitIDs s ++ queueIDs s := by
    simp [waitIDs, queueIDs, h3, h4]
  refine ⟨?_, ?_, ?_, ?_⟩
  · rw [hr]; exact hR.nodup
  · intro k hk
    rw [h1]
    exact hR.disj_run k (by rwa [hr] at hk)
  · intro k hk
    rw [hwq]
    exact hR.disj_wq k (by rwa [hr] at hk)
  · intro k hk
    exact hR.rep_fresh k (by rwa [hr] at hk)

/-- Submitted jobs sit in the pipeline. -/
theorem submitLog_subset_pipeline (s : WState) (k : Nat) (h : k ∈ s.submitLog) :
    k ∈ pipeline s := by
  simp [pipeline, h]

/-- `PresOut` at an unchanged (or ghost-field-only changed) state. -/
theorem presOut_ghost (cfg : Config) (n : Nat) (nj : Option JobTuple) (s s' : WState)
    (h1 : s'.runningJobs = s.runningJobs) (h2 : s'.batchJobIDs = s.batchJobIDs)
    (h3 : s'.waitingJobs = s.waitingJobs) (h4 : s'.newJobsQueue = s.newJobsQueue)
    (h5 : s'.submitLog = s.submitLog) (h6 : s'.updatedJobsQueue = s.updatedJobsQueue)
    (h7 : s'.killedJobsQueue = s.killedJobsQueue)
    (hI : WInv cfg n s) : PresOut cfg n nj s s' := by
  refine ⟨WInv_transport cfg n s s' h1 h2 h3 h4 h5 hI,
    fun hR => RepInv_transport n s s' h1 h3 h4 h6 h7 hR, ?_, ?_⟩
  · intro hok
    cases nj with
    | none => trivial
    | some j =>
      obtain ⟨a, b, c, e⟩ := hok
      refine ⟨a, ?_, ?_, ?_⟩
      · intro x hx
        refine b x ?_
        have hw : waitIDs s' = waitIDs s := by simp [waitIDs, h3]
        rwa [h5, hw] at hx
      · intro x hx
        refine c x ?_
        have hw : queueIDs s' = queueIDs s := by simp [queueIDs, h4]
        rwa [hw] at hx
      · rw [h1]
        exact e
  · intro _ hrep
    cases nj with
    | none => trivial
    | some j =>
      have hr : reported s' = reported s := by simp [reported, h6, h7]
      rw [show NewJobRep s' (some j) = (j.jobID ∉ reported s') from rfl, hr]
      exact hrep

/-- `PresOut` composes. -/
theorem presOut_trans (cfg : Config) (n : Nat) (nj : Option JobTuple)
    (s s' s'' : WState) (hab : PresOut cfg n nj s s') (hbc : PresOut cfg n nj s' s'') :
    PresOut cfg n nj s s'' :=
  ⟨hbc.1, fun hR => hbc.2.1 (hab.2.1 hR),
   fun hok => hbc.2.2.1 (hab.2.2.1 hok),
   fun hok hrep => hbc.2.2.2 (hab.2.2.1 hok) (hab.2.2.2 hok hrep)⟩

/-- Inserting a fresh element anywhere keeps a list duplicate-free. -/
theorem nodup_insert_mid (X Y : List Nat) (j : Nat) (h : (X ++ Y).Nodup)
    (hj : j ∉ X ++ Y) : (X ++ j :: Y).Nodup := by
  have h' : (j :: (X ++ Y)).Nodup := by
    rw [List.nodup_cons]
    exact ⟨hj, h⟩
  exact List.perm_middle.symm.nodup h'

/-- Forgetting a job preserves the worker invariant. -/
theorem WInv_forget (cfg : Config) (n : Nat) (s : WState) (j : Nat)
    (hI : WInv cfg n s) :
    WInv cfg n { s with runningJobs := s.runningJobs.erase j,
                        batchJobIDs := dictDel s.batchJobIDs j } := by
  refine ⟨hI.nodup_run.erase j, ?_, hI.sorted, ?_, ?_, ?_, hI.fresh⟩
  · exact le_trans (List.Sublist.length_le (List.erase_sublist j s.runningJobs)) hI.card_le
  · intro k
    rw [show keysOf (dictDel s.batchJobIDs j) = keysOf (dictDel s.batchJobIDs j) from rfl,
      mem_keysOf_del, hI.keys_run k, List.Nodup.mem_erase_iff hI.nodup_run]
    exact and_comm
  · intro k hk
    exact hI.run_sub k (List.mem_of_mem_erase hk)
  · intro k hk
    intro hmem
    exact hI.wq_run k hk (List.mem_of_mem_erase hmem)

/-- Reporting a running job on the killed-confirmation queue and forgetting
it preserves everything. -/
theorem presOut_report_killed (cfg : Config) (n : Nat) (nj : Option JobTuple)
    (s : WState) (j : Nat) (hI : WInv cfg n s) (hj : j ∈ s.runningJobs) :
    PresOut cfg n nj s
      { s with killedJobsQueue := s.killedJobsQueue ++ [j],
               runningJobs := s.runningJobs.erase j,
               batchJobIDs := dictDel s.batchJobIDs j } := by
  have hrep : reported { s with killedJobsQueue := s.killedJobsQueue ++ [j]
                               , runningJobs := s.runningJobs.erase j
                               , batchJobIDs := dictDel s.batchJobIDs j } =
      reported s ++ [j] := by
    simp [reported]
  have hjn : j < n :=
    hI.fresh j (submitLog_subset_pipeline s j (hI.run_sub j hj))
  have hjwq : j ∉ waitIDs s ++ queueIDs s := fun hmem => hI.wq_run j hmem hj
  refine ⟨WInv_transport cfg n
      { s with runningJobs := s.runningJobs.erase j,
               batchJobIDs := dictDel s.batchJobIDs j }
      { s with killedJobsQueue := s.killedJobsQueue ++ [j],
               runningJobs := s.runningJobs.erase j,
               batchJobIDs := dictDel s.batchJobIDs j }
      rfl rfl rfl rfl rfl (WInv_forget cfg n s j hI),
    ?_, ?_, ?_⟩
  · intro hR
    have hjR : j ∉ reported s := fun hmem => hR.disj_run j hmem hj
    refine ⟨?_, ?_, ?_, ?_⟩
    · rw [hrep]
      exact nodup_append_singleton _ j hR.nodup hjR
    · intro k hk
      rw [hrep, List.mem_append] at hk
      rcases hk with hk | hk
      · intro hmem
        exact hR.disj_run k hk (List.mem_of_mem_erase hmem)
      · rw [List.mem_singleton.mp hk]
        intro hmem
        exact (List.Nodup.mem_erase_iff hI.nodup_run).mp hmem |>.1 rfl
    · intro k hk
      rw [hrep, List.mem_append] at hk
      rcases hk with hk | hk
      · exact hR.disj_wq k hk
      · rw [List.mem_singleton.mp hk]
        exact hjwq
    · intro k hk
      rw [hrep, List.mem_append] at hk
      rcases hk with hk | hk
      · exact hR.rep_fresh k hk
      · rw [List.mem_singleton.mp hk]
        exact hjn
  · intro hok
    cases nj with
    | none => trivial
    | some w =>
      obtain ⟨a, b, c, e⟩ := hok
      exact ⟨a, b, c, fun hmem => e (List.mem_of_mem_erase hmem)⟩
  · intro hok hr
    cases nj with
    | none => trivial
    | some w =>
      obtain ⟨a, b, c, e⟩ := hok
      show w.jobID ∉ reported _
      rw [hrep, List.mem_append]
      rintro (hk | hk)
      · exact hr hk
      · refine e ?_
        rw [List.mem_singleton.mp hk]
        exact hj

/-- Reporting a running job on the updated-job queue and forgetting it
preserves everything. -/
theorem presOut_report_updated (cfg : Config) (n : Nat) (nj : Option JobTuple)
    (s : WState) (j : Nat) (code : Int) (hI : WInv cfg n s) (hj : j ∈ s.runningJobs) :
    PresOut cfg n nj s
      { s with updatedJobsQueue := s.updatedJobsQueue ++ [(j, code)],
               runningJobs := s.runningJobs.erase j,
               batchJobIDs := dictDel s.batchJobIDs j } := by
  have hrep : ∀ k, k ∈ reported { s with
                                    updatedJobsQueue := s.updatedJobsQueue ++ [(j, code)]
                                  , runningJobs := s.runningJobs.erase j
                                  , batchJobIDs := dictDel s.batchJobIDs j } ↔
      (k = j ∨ k ∈ reported s) := by
    intro k
    simp [reported]
    tauto
  have hrepnd : reported { s with
                             updatedJobsQueue := s.updatedJobsQueue ++ [(j, code)]
                           , runningJobs := s.runningJobs.erase j
                           , batchJobIDs := dictDel s.batchJobIDs j } =
      (s.updatedJobsQueue.map Prod.fst ++ [j]) ++ s.killedJobsQueue := by
    simp [reported]
  have hjn : j < n :=
    hI.fresh j (submitLog_subset_pipeline s j (hI.run_sub j hj))
  have hjwq : j ∉ waitIDs s ++ queueIDs s := fun hmem => hI.wq_run j hmem hj
  refine ⟨WInv_transport cfg n
      { s with runningJobs := s.runningJobs.erase j,
               batchJobIDs := dictDel s.batchJobIDs j }
      { s with updatedJobsQueue := s.updatedJobsQueue ++ [(j, code)],
               runningJobs := s.runningJobs.erase j,
               batchJobIDs := dictDel s.batchJobIDs j }
      rfl rfl rfl rfl rfl (WInv_forget cfg n s j hI),
    ?_, ?_, ?_⟩
  · intro hR
    have hjR : j ∉ reported s := fun hmem => hR.disj_run j hmem hj
    refine ⟨?_, ?_, ?_, ?_⟩
    · rw [hrepnd]
      rw [show s.updatedJobsQueue.map Prod.fst ++ [j] ++ s.killedJobsQueue =
        s.updatedJobsQueue.map Prod.fst ++ j :: s.killedJobsQueue from by simp]
      exact nodup_insert_mid _ _ j hR.nodup hjR
    · intro k hk
      rcases (hrep k).mp hk with rfl | hk
      · intro hmem
        exact (List.Nodup.mem_erase_iff hI.nodup_run).mp hmem |>.1 rfl
      · intro hmem
        exact hR.disj_run k hk (List.mem_of_mem_erase hmem)
    · intro k hk
      rcases (hrep k).mp hk with rfl | hk
      · exact hjwq
      · exact hR.disj_wq k hk
    · intro k hk
      rcases (hrep k).mp hk with rfl | hk
      · exact hjn
      · exact hR.rep_fresh k hk
  · intro hok
    cases nj with
    | none => trivial
    | some w =>
      obtain ⟨a, b, c, e⟩ := hok
      exact ⟨a, b, c, fun hmem => e (List.mem_of_mem_erase hmem)⟩
  · intro hok hr
    cases nj with
    | none => trivial
    | some w =>
      obtain ⟨a, b, c, e⟩ := hok
      show w.jobID ∉ reported _
      intro hk
      rcases (hrep w.jobID).mp hk with he | hk
      · refine e ?_
        rw [he]
        exact hj
      · exact hr hk

/-- One pass of the kill-confirmation loop preserves the invariants and the
new-job knowledge, whatever the driver answers. -/
theorem killConfirmRound_pres (d : Driver) (cfg : Config) (n : Nat)
    (nj : Option JobTuple) (copy : List Nat) :
    ∀ (kl : List Nat) (s : WState), WInv cfg n s →
      PresOut cfg n nj s (wresState (killConfirmRound d copy kl s)) := by
  induction copy with
  | nil =>
    intro kl s hI
    exact presOut_ghost cfg n nj s s rfl rfl rfl rfl rfl rfl rfl hI
  | cons j rest ih =>
    intro kl s hI
    cases hb : getBatchSystemID s j with
    | error e =>
      simp only [killConfirmRound, hb]
      exact presOut_ghost cfg n nj s s rfl rfl rfl rfl rfl rfl rfl hI
    | ok bid =>
      rcases hrn : with_retries (fun i => d.exitOutcome bid (s.exitCalls bid + i)) with
        ⟨res, cnt⟩
      cases res with
      | error e =>
        simp only [killConfirmRound, hb, hrn]
        exact presOut_ghost cfg n nj s
          { s with exitCalls := bumpCalls s.exitCalls bid cnt
                 , queryLog := s.queryLog ++ List.replicate cnt bid }
          rfl rfl rfl rfl rfl rfl rfl hI
      | ok status =>
        cases status with
        | none =>
          simp only [killConfirmRound, hb, hrn]
          exact presOut_trans cfg n nj s
            { s with exitCalls := bumpCalls s.exitCalls bid cnt
                   , queryLog := s.queryLog ++ List.replicate cnt bid } _
            (presOut_ghost cfg n nj s _ rfl rfl rfl rfl rfl rfl rfl hI)
            (ih kl _ (WInv_transport cfg n s _ rfl rfl rfl rfl rfl hI))
        | some code =>
          have hsome : (dictGet s.batchJobIDs j).isSome :=
            getBatchSystemID_ok_isSome s j bid hb
          have hjr : j ∈ s.runningJobs :=
            (hI.keys_run j).mp ((mem_keysOf_iff_isSome _ j).mpr hsome)
          have hstep : killConfirmRound d (j :: rest) kl s =
              killConfirmRound d rest (kl.erase j)
                { s with exitCalls := bumpCalls s.exitCalls bid cnt
                       , queryLog := s.queryLog ++ List.replicate cnt bid
                       , killedJobsQueue := s.killedJobsQueue ++ [j]
                       , runningJobs := s.runningJobs.erase j
                       , batchJobIDs := dictDel s.batchJobIDs j } := by
            simp only [killConfirmRound, hb, hrn]
            rw [forgetJob_run
              { s with exitCalls := bumpCalls s.exitCalls bid cnt
                     , queryLog := s.queryLog ++ List.replicate cnt bid
                     , killedJobsQueue := s.killedJobsQueue ++ [j] } j hjr hsome]
          rw [hstep]
          have hI1 : WInv cfg n
              { s with exitCalls := bumpCalls s.exitCalls bid cnt
                     , queryLog := s.queryLog ++ List.replicate cnt bid } :=
            WInv_transport cfg n s _ rfl rfl rfl rfl rfl hI
          have hpre : PresOut cfg n nj s
              { s with exitCalls := bumpCalls s.exitCalls bid cnt
                     , queryLog := s.queryLog ++ List.replicate cnt bid
                     , killedJobsQueue := s.killedJobsQueue ++ [j]
                     , runningJobs := s.runningJobs.erase j
                     , batchJobIDs := dictDel s.batchJobIDs j } :=
            presOut_trans cfg n nj s
              { s with exitCalls := bumpCalls s.exitCalls bid cnt
                     , queryLog := s.queryLog ++ List.replicate cnt bid } _
              (presOut_ghost cfg n nj s _ rfl rfl rfl rfl rfl rfl rfl hI)
              (presOut_report_killed cfg n nj _ j hI1 hjr)
          exact presOut_trans cfg n nj s _ _ hpre
            (ih (kl.erase j) _ hpre.1)

/-- The whole kill-confirmation loop preserves the invariants and the new-job
knowledge, for any fuel. -/
theorem killConfirmLoop_pres (d : Driver) (cfg : Config) (n : Nat)
    (nj : Option JobTuple) :
    ∀ (fuel : Nat) (kl : List Nat) (s : WState), WInv cfg n s →
      PresOut cfg n nj s (kresState (killConfirmLoop d fuel kl s)) := by
  intro fuel
  induction fuel with
  | zero =>
    intro kl s hI
    cases kl with
    | nil => exact presOut_ghost cfg n nj s s rfl rfl rfl rfl rfl rfl rfl hI
    | cons a as => exact presOut_ghost cfg n nj s s rfl rfl rfl rfl rfl rfl rfl hI
  | succ fuel ih =>
    intro kl s hI
    cases kl with
    | nil => exact presOut_ghost cfg n nj s s rfl rfl rfl rfl rfl rfl rfl hI
    | cons a as =>
      have hround := killConfirmRound_pres d cfg n nj (a :: as) (a :: as) s hI
      cases hr : killConfirmRound d (a :: as) (a :: as) s with
      | err e s1 =>
        rw [hr] at hround
        simp only [killConfirmLoop, hr]
        exact hround
      | ok kl1 s1 =>
        rw [hr] at hround
        simp only [killConfirmLoop, hr]
        exact presOut_trans cfg n nj s s1 _ hround (ih kl1 s1 hround.1)

/-- One completion-polling pass preserves the invariants and the new-job
knowledge, whatever the driver answers. -/
theorem checkOnJobsLoop_pres (d : Driver) (cfg : Config) (n : Nat)
    (nj : Option JobTuple) (l : List Nat) :
    ∀ (act : Bool) (s : WState), WInv cfg n s →
      PresOut cfg n nj s (wresState (checkOnJobsLoop d l act s)) := by
  induction l with
  | nil =>
    intro act s hI
    exact presOut_ghost cfg n nj s s rfl rfl rfl rfl rfl rfl rfl hI
  | cons j rest ih =>
    intro act s hI
    cases hb : getBatchSystemID s j with
    | error e =>
      simp only [checkOnJobsLoop, hb]
      exact presOut_ghost cfg n nj s s rfl rfl rfl rfl rfl rfl rfl hI
    | ok bid =>
      rcases hrn : with_retries (fun i => d.exitOutcome bid (s.exitCalls bid + i)) with
        ⟨res, cnt⟩
      cases res with
      | error e =>
        simp only [checkOnJobsLoop, hb, hrn]
        exact presOut_ghost cfg n nj s
          { s with exitCalls := bumpCalls s.exitCalls bid cnt
                 , queryLog := s.queryLog ++ List.replicate cnt bid }
          rfl rfl rfl rfl rfl rfl rfl hI
      | ok status =>
        cases status with
        | none =>
          simp only [checkOnJobsLoop, hb, hrn]
          exact presOut_trans cfg n nj s
            { s with exitCalls := bumpCalls s.exitCalls bid cnt
                   , queryLog := s.queryLog ++ List.replicate cnt bid } _
            (presOut_ghost cfg n nj s _ rfl rfl rfl rfl rfl rfl rfl hI)
            (ih act _ (WInv_transport cfg n s _ rfl rfl rfl rfl rfl hI))
        | some code =>
          have hsome : (dictGet s.batchJobIDs j).isSome :=
            getBatchSystemID_ok_isSome s j bid hb
          have hjr : j ∈ s.runningJobs :=
            (hI.keys_run j).mp ((mem_keysOf_iff_isSome _ j).mpr hsome)
          have hstep : checkOnJobsLoop d (j :: rest) act s =
              checkOnJobsLoop d rest true
                { s with exitCalls := bumpCalls s.exitCalls bid cnt
                       , queryLog := s.queryLog ++ List.replicate cnt bid
                       , updatedJobsQueue := s.updatedJobsQueue ++ [(j, code)]
                       , runningJobs := s.runningJobs.erase j
                       , batchJobIDs := dictDel s.batchJobIDs j } := by
            simp only [checkOnJobsLoop, hb, hrn]
            rw [forgetJob_run
              { s with exitCalls := bumpCalls s.exitCalls bid cnt
                     , queryLog := s.queryLog ++ List.replicate cnt bid
                     , updatedJobsQueue := s.updatedJobsQueue ++ [(j, code)] } j hjr hsome]
          rw [hstep]
          have hI1 : WInv cfg n
              { s with exitCalls := bumpCalls s.exitCalls bid cnt
                     , queryLog := s.queryLog ++ List.replicate cnt bid } :=
            WInv_transport cfg n s _ rfl rfl rfl rfl rfl hI
          have hpre : PresOut cfg n nj s
              { s with exitCalls := bumpCalls s.exitCalls bid cnt
                     , queryLog := s.queryLog ++ List.replicate cnt bid
                     , updatedJobsQueue := s.updatedJobsQueue ++ [(j, code)]
                     , runningJobs := s.runningJobs.erase j
                     , batchJobIDs := dictDel s.batchJobIDs j } :=
            presOut_trans cfg n nj s
              { s with exitCalls := bumpCalls s.exitCalls bid cnt
                     , queryLog := s.queryLog ++ List.replicate cnt bid } _
              (presOut_ghost cfg n nj s _ rfl rfl rfl rfl rfl rfl rfl hI)
              (presOut_report_updated cfg n nj _ j code hI1 hjr)
          exact presOut_trans cfg n nj s _ _ hpre (ih true _ hpre.1)

/-- `checkOnJobs` preserves the invariants and the new-job knowledge. -/
theorem checkOnJobs_pres (d : Driver) (cfg : Config) (n : Nat)
    (nj : Option JobTuple) (now : Int) (s : WState) (hI : WInv cfg n s) :
    PresOut cfg n nj s (wresState (checkOnJobs d cfg now s)) := by
  have hrefresh : PresOut cfg n nj s (wresState (checkOnJobsRefresh d now s)) := by
    have hloop := checkOnJobsLoop_pres d cfg n nj s.runningJobs false s hI
    cases hl : checkOnJobsLoop d s.runningJobs false s with
    | err e s1 =>
      rw [hl] at hloop
      simp only [checkOnJobsRefresh, hl]
      exact hloop
    | ok act1 s1 =>
      rw [hl] at hloop
      simp only [checkOnJobsRefresh, hl]
      exact presOut_trans cfg n nj s s1 _ hloop
        (presOut_ghost cfg n nj s1 _ rfl rfl rfl rfl rfl rfl rfl hloop.1)
  unfold checkOnJobs
  cases hts : s.chkTs with
  | none => exact hrefresh
  | some ts =>
    show PresOut cfg n nj s (wresState (if now - ts < cfg.statePollingWait
      then WRes.ok (s.chkCache.getD false) s else checkOnJobsRefresh d now s))
    by_cases hv : now - ts < cfg.statePollingWait
    · rw [if_pos hv]
      exact presOut_ghost cfg n nj s s rfl rfl rfl rfl rfl rfl rfl hI
    · rw [if_neg hv]
      exact hrefresh

/-- The weak bundle follows from the strong one. -/
theorem presOutW_of_presOut (cfg : Config) (n : Nat) (nj : Option JobTuple)
    (s s' : WState) (h : PresOut cfg n nj s s') : PresOutW cfg n nj s s' :=
  ⟨h.1, h.2.2.1⟩

/-- The weak bundle composes. -/
theorem presOutW_trans (cfg : Config) (n : Nat) (nj : Option JobTuple)
    (s s' s'' : WState) (hab : PresOutW cfg n nj s s')
    (hbc : PresOutW cfg n nj s' s'') : PresOutW cfg n nj s s'' :=
  ⟨hbc.1, fun hok => hbc.2 (hab.2 hok)⟩

/-- The weak bundle at a state differing only in fields the worker invariant
and the new-job knowledge do not read (the killed-confirmation queue
included). -/
theorem presOutW_ghost (cfg : Config) (n : Nat) (nj : Option JobTuple)
    (s s' : WState)
    (h1 : s'.runningJobs = s.runningJobs) (h2 : s'.batchJobIDs = s.batchJobIDs)
    (h3 : s'.waitingJobs = s.waitingJobs) (h4 : s'.newJobsQueue = s.newJobsQueue)
    (h5 : s'.submitLog = s.submitLog) (hI : WInv cfg n s) :
    PresOutW cfg n nj s s' := by
  refine ⟨WInv_transport cfg n s s' h1 h2 h3 h4 h5 hI, ?_⟩
  intro hok
  cases nj with
  | none => trivial
  | some j =>
    obtain ⟨a, b, c, e⟩ := hok
    refine ⟨a, ?_, ?_, ?_⟩
    · intro x hx
      refine b x ?_
      have hw : waitIDs s' = waitIDs s := by simp [waitIDs, h3]
      rwa [h5, hw] at hx
    · intro x hx
      refine c x ?_
      have hw : queueIDs s' = queueIDs s := by simp [queueIDs, h4]
      rwa [hw] at hx
    · rw [h1]
      exact e

/-- Phase-1 step on a running job: just the ghost kill log grows. -/
theorem killPhase1_cons_running (j : Nat) (rest kl : List Nat) (s : WState)
    (h : j ∈ s.runningJobs) :
    killPhase1 (j :: rest) kl s =
      killPhase1 rest kl { s with killLog := s.killLog ++ [j] } := by
  simp only [killPhase1, if_pos h]

/-- Phase-1 step on a non-running job: the waiting list is untouched (the
membership test is the always-false int-against-tuple comparison), the job is
reported killed at once and dropped from the pending list. -/
theorem killPhase1_cons_not_running (j : Nat) (rest kl : List Nat) (s : WState)
    (h : j ∉ s.runningJobs) :
    killPhase1 (j :: rest) kl s =
      killPhase1 rest (kl.erase j)
        { s with killedJobsQueue := s.killedJobsQueue ++ [j] } := by
  simp only [killPhase1, if_neg h, any_idEq_false, Bool.false_eq_true, if_false]

/-- Phase 1 preserves the weak bundle whatever the kill batch contains. -/
theorem killPhase1_presW (cfg : Config) (n : Nat) (nj : Option JobTuple)
    (copy : List Nat) :
    ∀ (kl : List Nat) (s : WState), WInv cfg n s →
      PresOutW cfg n nj s (killPhase1 copy kl s).2 := by
  induction copy with
  | nil =>
    intro kl s hI
    exact presOutW_ghost cfg n nj s s rfl rfl rfl rfl rfl hI
  | cons j rest ih =>
    intro kl s hI
    by_cases h : j ∈ s.runningJobs
    · rw [killPhase1_cons_running j rest kl s h]
      exact presOutW_trans cfg n nj s { s with killLog := s.killLog ++ [j] } _
        (presOutW_ghost cfg n nj s _ rfl rfl rfl rfl rfl hI)
        (ih kl _ (WInv_transport cfg n s _ rfl rfl rfl rfl rfl hI))
    · rw [killPhase1_cons_not_running j rest kl s h]
      exact presOutW_trans cfg n nj s
        { s with killedJobsQueue := s.killedJobsQueue ++ [j] } _
        (presOutW_ghost cfg n nj s _ rfl rfl rfl rfl rfl hI)
        (ih (kl.erase j) _ (WInv_transport cfg n s _ rfl rfl rfl rfl rfl hI))

/-- `killJobs` preserves the weak bundle on any state. -/
theorem killJobs_presW (d : Driver) (cfg : Config) (n : Nat) (nj : Option JobTuple)
    (fuel : Nat) (s : WState) (hI : WInv cfg n s) :
    PresOutW cfg n nj s (kresState (killJobs d fuel s)) := by
  unfold killJobs
  cases hq : s.killQueue with
  | nil => exact presOutW_ghost cfg n nj s _ rfl rfl rfl rfl rfl hI
  | cons a as =>
    have hph := killPhase1_presW cfg n nj (a :: as) (a :: as)
      { s with killQueue := [] }
      (WInv_transport cfg n s _ rfl rfl rfl rfl rfl hI)
    have hloop := killConfirmLoop_pres d cfg n nj fuel
      (killPhase1 (a :: as) (a :: as) { s with killQueue := [] }).1
      (killPhase1 (a :: as) (a :: as) { s with killQueue := [] }).2
      hph.1
    exact presOutW_trans cfg n nj s _ _
      (presOutW_trans cfg n nj s { s with killQueue := [] } _
        (presOutW_ghost cfg n nj s _ rfl rfl rfl rfl rfl hI) hph)
      (presOutW_of_presOut cfg n nj _ _ hloop)

/-- `killJobs` preserves the strong bundle when every request in the drained
batch names a running job (phase 1 then reports nothing). -/
theorem killJobs_pres_safe (d : Driver) (cfg : Config) (n : Nat)
    (nj : Option JobTuple) (fuel : Nat) (s : WState) (hI : WInv cfg n s)
    (hsafe : ∀ j ∈ s.killQueue, j ∈ s.runningJobs) :
    PresOut cfg n nj s (kresState (killJobs d fuel s)) := by
  unfold killJobs
  cases hq : s.killQueue with
  | nil => exact presOut_ghost cfg n nj s _ rfl rfl rfl rfl rfl rfl rfl hI
  | cons a as =>
    have hrun : ∀ j ∈ (a :: as), j ∈ ({ s with killQueue := ([] : List Nat)} : WState).runningJobs := by
      intro j hj
      exact hsafe j (by rw [hq]; exact hj)
    have heq := killPhase1_all_running (a :: as) (a :: as) { s with killQueue := [] } hrun
    have hI1 : WInv cfg n { s with killQueue := ([] : List Nat), killLog := s.killLog ++ (a :: as) } :=
      WInv_transport cfg n s _ rfl rfl rfl rfl rfl hI
    show PresOut cfg n nj s (kresState (killConfirmLoop d fuel
      (killPhase1 (a :: as) (a :: as) { s with killQueue := [] }).1
      (killPhase1 (a :: as) (a :: as) { s with killQueue := [] }).2))
    rw [heq]
    exact presOut_trans cfg n nj s
      { s with killQueue := ([] : List Nat), killLog := s.killLog ++ (a :: as) } _
      (presOut_ghost cfg n nj s _ rfl rfl rfl rfl rfl rfl rfl hI)
      (killConfirmLoop_pres d cfg n nj fuel (a :: as) _ hI1)

/-- Membership in the set-add model. -/
theorem mem_setAdd (l : List Nat) (x k : Nat) :
    k ∈ setAdd l x ↔ (k = x ∨ k ∈ l) := by
  by_cases hx : x ∈ l
  · simp only [setAdd, if_pos hx]
    constructor
    · exact Or.inr
    · rintro (rfl | h)
      · exact hx
      · exact h
  · simp [setAdd, if_neg hx]
    exact Or.comm

/-- Set-add keeps the list duplicate-free. -/
theorem setAdd_nodup (l : List Nat) (x : Nat) (h : l.Nodup) : (setAdd l x).Nodup := by
  by_cases hx : x ∈ l
  · simpa [setAdd, if_pos hx] using h
  · rw [setAdd, if_neg hx]
    exact nodup_append_singleton l x h hx

/-- Set-add grows the size by at most one. -/
theorem setAdd_length_le (l : List Nat) (x : Nat) :
    (setAdd l x).length ≤ l.length + 1 := by
  by_cases hx : x ∈ l
  · simp [setAdd, if_pos hx]
  · simp [setAdd, if_neg hx]

/-- Popping the waiting-list head and logging its submission attempt (the
failing-submission exit of the launch loop) preserves everything. -/
theorem presOut_pop_fail (cfg : Config) (n : Nat) (s : WState) (w : JobTuple)
    (rest : List JobTuple) (cnt : Nat) (hw : s.waitingJobs = w :: rest)
    (hI : WInv cfg n s) :
    PresOut cfg n none s
      { s with waitingJobs := rest
             , submitCalls := s.submitCalls + cnt
             , submitLog := s.submitLog ++ [w.jobID] } := by
  have hps : pipeline { s with waitingJobs := rest
                              , submitCalls := s.submitCalls + cnt
                              , submitLog := s.submitLog ++ [w.jobID] } =
      pipeline s := by
    simp [pipeline, waitIDs, queueIDs, hw]
  have hsub : ∀ k, k ∈ (rest.map JobTuple.jobID ++ queueIDs s) →
      k ∈ waitIDs s ++ queueIDs s := by
    intro k hk
    simp only [waitIDs, hw, List.map_cons, List.cons_append, List.mem_cons]
    exact Or.inr hk
  refine ⟨⟨hI.nodup_run, hI.card_le, by rw [hps]; exact hI.sorted, hI.keys_run,
    ?_, ?_, ?_⟩, ?_, fun _ => trivial, fun _ _ => trivial⟩
  · intro k hk
    exact List.mem_append_left _ (hI.run_sub k hk)
  · intro k hk
    exact hI.wq_run k (hsub k hk)
  · intro k hk
    exact hI.fresh k (by rwa [hps] at hk)
  · intro hR
    refine ⟨hR.nodup, hR.disj_run, ?_, hR.rep_fresh⟩
    intro k hk hmem
    exact hR.disj_wq k hk (hsub k hmem)

/-- Popping the waiting-list head, logging its submission, recording its
external handle and adding it to the running set (the successful iteration of
the launch loop) preserves everything, provided the running set was strictly
below the ceiling. -/
theorem presOut_pop_ok (cfg : Config) (n : Nat) (s : WState) (w : JobTuple)
    (rest : List JobTuple) (cnt batchID : Nat) (hw : s.waitingJobs = w :: rest)
    (hI : WInv cfg n s) (hc : s.runningJobs.length < cfg.maxLocalJobs) :
    PresOut cfg n none s
      { s with waitingJobs := rest
             , submitCalls := s.submitCalls + cnt
             , submitLog := s.submitLog ++ [w.jobID]
             , batchJobIDs := dictSet s.batchJobIDs w.jobID (batchID, none)
             , runningJobs := setAdd s.runningJobs w.jobID } := by
  have hps : pipeline { s with waitingJobs := rest
                              , submitCalls := s.submitCalls + cnt
                              , submitLog := s.submitLog ++ [w.jobID]
                              , batchJobIDs := dictSet s.batchJobIDs w.jobID (batchID, none)
                              , runningJobs := setAdd s.runningJobs w.jobID } =
      pipeline s := by
    simp [pipeline, waitIDs, queueIDs, hw]
  have hpip : pipeline s =
      s.submitLog ++ w.jobID :: (rest.map JobTuple.jobID ++ queueIDs s) := by
    simp [pipeline, waitIDs, hw]
  have hsorted : List.Pairwise (· < ·)
      (s.submitLog ++ w.jobID :: (rest.map JobTuple.jobID ++ queueIDs s)) := by
    rw [← hpip]
    exact hI.sorted
  rw [List.pairwise_append] at hsorted
  have hgt : ∀ b ∈ rest.map JobTuple.jobID ++ queueIDs s, w.jobID < b :=
    (List.pairwise_cons.mp hsorted.2.1).1
  have hmemw : w.jobID ∈ waitIDs s ++ queueIDs s := by
    simp [waitIDs, hw]
  have hjrun : w.jobID ∉ s.runningJobs := hI.wq_run w.jobID hmemw
  have hsub : ∀ k, k ∈ (rest.map JobTuple.jobID ++ queueIDs s) →
      k ∈ waitIDs s ++ queueIDs s := by
    intro k hk
    simp only [waitIDs, hw, List.map_cons, List.cons_append, List.mem_cons]
    exact Or.inr hk
  refine ⟨⟨setAdd_nodup _ _ hI.nodup_run, ?_, by rw [hps]; exact hI.sorted,
    ?_, ?_, ?_, ?_⟩, ?_, fun _ => trivial, fun _ _ => trivial⟩
  · exact le_trans (setAdd_length_le _ _) (by omega)
  · intro k
    rw [show keysOf (dictSet s.batchJobIDs w.jobID (batchID, none)) =
      keysOf (dictSet s.batchJobIDs w.jobID (batchID, none)) from rfl,
      mem_keysOf_set, mem_setAdd, hI.keys_run k]
  · intro k hk
    rcases (mem_setAdd _ _ _).mp hk with rfl | hk
    · exact List.mem_append_right _ (by simp)
    · exact List.mem_append_left _ (hI.run_sub k hk)
  · intro k hk hmem
    rcases (mem_setAdd _ _ _).mp hmem with rfl | hmem
    · exact absurd (hgt w.jobID hk) (lt_irrefl w.jobID)
    · exact hI.wq_run k (hsub k hk) hmem
  · intro k hk
    exact hI.fresh k (by rwa [hps] at hk)
  · intro hR
    refine ⟨hR.nodup, ?_, ?_, hR.rep_fresh⟩
    · intro k hk hmem
      rcases (mem_setAdd _ _ _).mp hmem with rfl | hmem
      · exact hR.disj_wq w.jobID hk hmemw
      · exact hR.disj_run k hk hmem
    · intro k hk hmem
      exact hR.disj_wq k hk (hsub k hmem)

/-- The launch loop of `createJobs` preserves everything (with no pending
new job left: it has already been appended). -/
theorem createJobsLoop_pres (d : Driver) (cfg : Config) (n : Nat)
    (l : List JobTuple) :
    ∀ (s : WState) (act : Bool), s.waitingJobs = l → WInv cfg n s →
      PresOut cfg n none s (wresState (createJobsLoop d cfg l s act)) := by
  induction l with
  | nil =>
    intro s act hw hI
    have hs : wresState (createJobsLoop d cfg [] s act) = s := by
      show ({ s with waitingJobs := ([] : List JobTuple) } : WState) = s
      rw [← hw]
    rw [hs]
    exact presOut_ghost cfg n none s s rfl rfl rfl rfl rfl rfl rfl hI
  | cons w rest ih =>
    intro s act hw hI
    by_cases hc : s.runningJobs.length < cfg.maxLocalJobs
    · rcases hrn : with_retries (fun i =>
        d.submitOutcome (d.prepareSubmission w.cores w.memory w.jobID w.command)
          (s.submitCalls + i)) with ⟨res, cnt⟩
      cases res with
      | error e =>
        simp only [createJobsLoop, if_pos hc, hrn]
        exact presOut_pop_fail cfg n s w rest cnt hw hI
      | ok batchID =>
        simp only [createJobsLoop, if_pos hc, hrn]
        have hstep := presOut_pop_ok cfg n s w rest cnt batchID hw hI hc
        exact presOut_trans cfg n none s
          { s with waitingJobs := rest
                 , submitCalls := s.submitCalls + cnt
                 , submitLog := s.submitLog ++ [w.jobID]
                 , batchJobIDs := dictSet s.batchJobIDs w.jobID (batchID, none)
                 , runningJobs := setAdd s.runningJobs w.jobID } _
          hstep (ih _ true rfl hstep.1)
    · simp only [createJobsLoop, if_neg hc]
      have hs : ({ s with waitingJobs := w :: rest } : WState) = s := by
        rw [← hw]
      rw [hs]
      exact presOut_ghost cfg n none s s rfl rfl rfl rfl rfl rfl rfl hI

/-- `createJobs` preserves the invariants, given the knowledge that comes
with the dequeued new job. -/
theorem createJobs_pres (d : Driver) (cfg : Config) (n : Nat)
    (nj : Option JobTuple) (s : WState) (hI : WInv cfg n s)
    (hok : NewJobOK n s nj) :
    WInv cfg n (wresState (createJobs d cfg nj s)) ∧
    (RepInv n s → NewJobRep s nj → RepInv n (wresState (createJobs d cfg nj s))) := by
  cases nj with
  | none =>
    have h := createJobsLoop_pres d cfg n s.waitingJobs s false rfl hI
    exact ⟨h.1, fun hR _ => h.2.1 hR⟩
  | some j =>
    obtain ⟨hn, hlow, hhigh, hrun⟩ := hok
    have hpipemem : ∀ k, (k ∈ s.submitLog ∨ k ∈ waitIDs s ∨ k ∈ queueIDs s) →
        k ∈ pipeline s := by
      intro k hk
      simp only [pipeline, List.mem_append]
      tauto
    have hpA : pipeline { s with waitingJobs := s.waitingJobs ++ [j] } =
        (s.submitLog ++ waitIDs s) ++ j.jobID :: queueIDs s := by
      simp [pipeline, waitIDs, queueIDs]
    have hIApp : WInv cfg n { s with waitingJobs := s.waitingJobs ++ [j] } := by
      refine ⟨hI.nodup_run, hI.card_le, ?_, hI.keys_run, hI.run_sub, ?_, ?_⟩
      · rw [hpA]
        apply sorted_insert_between
        · rw [show (s.submitLog ++ waitIDs s) ++ queueIDs s = pipeline s from by
            simp [pipeline]]
          exact hI.sorted
        · exact hlow
        · exact hhigh
      · intro k hk
        have hk' : k = j.jobID ∨ k ∈ waitIDs s ++ queueIDs s := by
          simp only [waitIDs, List.map_append, List.map_cons, List.map_nil,
            List.mem_append, List.mem_cons, List.mem_singleton] at hk ⊢
          tauto
        rcases hk' with rfl | hk'
        · exact hrun
        · exact hI.wq_run k hk'
      · intro k hk
        rw [hpA] at hk
        simp only [List.mem_append, List.mem_cons] at hk
        rcases hk with (hk | hk) | rfl | hk
        · exact hI.fresh k (hpipemem k (Or.inl hk))
        · exact hI.fresh k (hpipemem k (Or.inr (Or.inl hk)))
        · exact hn
        · exact hI.fresh k (hpipemem k (Or.inr (Or.inr hk)))
    have hRApp : RepInv n s → NewJobRep s (some j) →
        RepInv n { s with waitingJobs := s.waitingJobs ++ [j] } := by
      intro hR hrep
      refine ⟨hR.nodup, hR.disj_run, ?_, hR.rep_fresh⟩
      intro k hk hmem
      have hk' : k = j.jobID ∨ k ∈ waitIDs s ++ queueIDs s := by
        simp only [waitIDs, List.map_append, List.map_cons, List.map_nil,
          List.mem_append, List.mem_cons, List.mem_singleton] at hmem ⊢
        tauto
      rcases hk' with rfl | hk'
      · exact hrep hk
      · exact hR.disj_wq k hk hk'
    have h := createJobsLoop_pres d cfg n (s.waitingJobs ++ [j])
      { s with waitingJobs := s.waitingJobs ++ [j] } false rfl hIApp
    exact ⟨h.1, fun hR hrep => h.2.1 (hRApp hR hrep)⟩

/-- Dequeuing a job from the head of the new-job queue: the shrunken state
keeps the invariants and yields the new-job knowledge. -/
theorem pop_some_pres (cfg : Config) (n : Nat) (s : WState) (j : JobTuple)
    (rest : List (Option JobTuple)) (hq : s.newJobsQueue = some j :: rest)
    (hI : WInv cfg n s) :
    WInv cfg n { s with newJobsQueue := rest } ∧
    NewJobOK n { s with newJobsQueue := rest } (some j) ∧
    (RepInv n s → RepInv n { s with newJobsQueue := rest } ∧
      NewJobRep { s with newJobsQueue := rest } (some j)) := by
  have hqid : queueIDs s = j.jobID :: queueIDs { s with newJobsQueue := rest } := by
    simp [queueIDs, hq]
  have hpip : pipeline s = (s.submitLog ++ waitIDs s) ++
      j.jobID :: queueIDs { s with newJobsQueue := rest } := by
    simp only [pipeline, hqid]
  have hpip' : pipeline { s with newJobsQueue := rest } =
      (s.submitLog ++ waitIDs s) ++ queueIDs { s with newJobsQueue := rest } := by
    simp [pipeline, waitIDs, queueIDs]
  have hsublist : List.Sublist (pipeline { s with newJobsQueue := rest })
      (pipeline s) := by
    rw [hpip, hpip']
    exact (List.sublist_cons_self _ _).append_left _
  have hsorted : List.Pairwise (· < ·) ((s.submitLog ++ waitIDs s) ++
      j.jobID :: queueIDs { s with newJobsQueue := rest }) := by
    rw [← hpip]
    exact hI.sorted
  rw [List.pairwise_append] at hsorted
  have hjq : j.jobID ∈ queueIDs s := by
    rw [hqid]
    simp
  have hjwq : j.jobID ∈ waitIDs s ++ queueIDs s := List.mem_append_right _ hjq
  have hwqsub : ∀ k, k ∈ waitIDs { s with newJobsQueue := rest } ++
      queueIDs { s with newJobsQueue := rest } → k ∈ waitIDs s ++ queueIDs s := by
    intro k hk
    rcases List.mem_append.mp hk with hk | hk
    · exact List.mem_append_left _ hk
    · refine List.mem_append_right _ ?_
      rw [hqid]
      exact List.mem_cons_of_mem _ hk
  refine ⟨⟨hI.nodup_run, hI.card_le, ?_, hI.keys_run, hI.run_sub, ?_, ?_⟩,
    ⟨?_, ?_, ?_, ?_⟩, ?_⟩
  · exact List.Pairwise.sublist hsublist hI.sorted
  · intro k hk
    exact hI.wq_run k (hwqsub k hk)
  · intro k hk
    exact hI.fresh k (hsublist.subset hk)
  · exact hI.fresh j.jobID (by simp [pipeline, hjq])
  · intro x hx
    exact hsorted.2.2 x hx j.jobID (by simp)
  · intro x hx
    exact (List.pairwise_cons.mp hsorted.2.1).1 x hx
  · exact hI.wq_run j.jobID hjwq
  · intro hR
    refine ⟨⟨hR.nodup, hR.disj_run, ?_, hR.rep_fresh⟩, ?_⟩
    · intro k hk hmem
      exact hR.disj_wq k hk (hwqsub k hmem)
    · intro hmem
      exact hR.disj_wq j.jobID hmem hjwq

/-- Dequeuing the sentinel: the popped state keeps the invariants (the
sentinel carries no job ID). -/
theorem pop_sentinel_pres (cfg : Config) (n : Nat) (s : WState)
    (rest : List (Option JobTuple)) (hq : s.newJobsQueue = none :: rest)
    (hI : WInv cfg n s) :
    WInv cfg n { s with newJobsQueue := rest } ∧
    (RepInv n s → RepInv n { s with newJobsQueue := rest }) := by
  have hqid : queueIDs { s with newJobsQueue := rest } = queueIDs s := by
    simp [queueIDs, hq]
  have hpip : pipeline { s with newJobsQueue := rest } = pipeline s := by
    simp only [pipeline, hqid]
    rfl
  have hwq : waitIDs { s with newJobsQueue := rest } ++
      queueIDs { s with newJobsQueue := rest } = waitIDs s ++ queueIDs s := by
    rw [hqid]
    rfl
  constructor
  · refine ⟨hI.nodup_run, hI.card_le, ?_, hI.keys_run, hI.run_sub, ?_, ?_⟩
    · rw [hpip]
      exact hI.sorted
    · intro k hk
      exact hI.wq_run k (by rwa [hwq] at hk)
    · intro k hk
      exact hI.fresh k (by rwa [hpip] at hk)
  · intro hR
    refine ⟨hR.nodup, hR.disj_run, ?_, hR.rep_fresh⟩
    intro k hk
    rw [hwq]
    exact hR.disj_wq k hk

/-- The post-dequeue body of a worker iteration keeps the worker invariant on
any state. -/
theorem iterBody_pres_plain (d : Driver) (cfg : Config) (n : Nat) (now : Int)
    (kfuel : Nat) (nj : Option JobTuple) (s : WState)
    (hI : WInv cfg n s) (hok : NewJobOK n s nj) :
    WInv cfg n (iterState (iterBody d cfg now kfuel nj s)) := by
  have hkill := killJobs_presW d cfg n nj kfuel s hI
  cases hk : killJobs d kfuel s with
  | err e s1 =>
    rw [hk] at hkill
    simp only [iterBody, hk]
    exact hkill.1
  | hung s1 =>
    rw [hk] at hkill
    simp only [iterBody, hk]
    exact hkill.1
  | done a s1 =>
    rw [hk] at hkill
    have hcreate := createJobs_pres d cfg n nj s1 hkill.1 (hkill.2 hok)
    cases hc : createJobs d cfg nj s1 with
    | err e s2 =>
      rw [hc] at hcreate
      simp only [iterBody, hk, hc]
      exact hcreate.1
    | ok b s2 =>
      rw [hc] at hcreate
      have hchk := checkOnJobs_pres d cfg n none now s2 hcreate.1
      cases hco : checkOnJobs d cfg now s2 with
      | err e s3 =>
        rw [hco] at hchk
        simp only [iterBody, hk, hc, hco]
        exact hchk.1
      | ok cc s3 =>
        rw [hco] at hchk
        simp only [iterBody, hk, hc, hco]
        exact hchk.1

/-- The post-dequeue body also keeps the reporting invariant when the drained
kill batch names only running jobs. -/
theorem iterBody_pres_safe (d : Driver) (cfg : Config) (n : Nat) (now : Int)
    (kfuel : Nat) (nj : Option JobTuple) (s : WState)
    (hI : WInv cfg n s) (hR : RepInv n s) (hok : NewJobOK n s nj)
    (hrep : NewJobRep s nj) (hsafe : ∀ j ∈ s.killQueue, j ∈ s.runningJobs) :
    WInv cfg n (iterState (iterBody d cfg now kfuel nj s)) ∧
    RepInv n (iterState (iterBody d cfg now kfuel nj s)) := by
  have hkill := killJobs_pres_safe d cfg n nj kfuel s hI hsafe
  cases hk : killJobs d kfuel s with
  | err e s1 =>
    rw [hk] at hkill
    simp only [iterBody, hk]
    exact ⟨hkill.1, hkill.2.1 hR⟩
  | hung s1 =>
    rw [hk] at hkill
    simp only [iterBody, hk]
    exact ⟨hkill.1, hkill.2.1 hR⟩
  | done a s1 =>
    rw [hk] at hkill
    have hR1 : RepInv n s1 := hkill.2.1 hR
    have hcreate := createJobs_pres d cfg n nj s1 hkill.1 (hkill.2.2.1 hok)
    have hrep1 : NewJobRep s1 nj := hkill.2.2.2 hok hrep
    cases hc : createJobs d cfg nj s1 with
    | err e s2 =>
      rw [hc] at hcreate
      simp only [iterBody, hk, hc]
      exact ⟨hcreate.1, hcreate.2 hR1 hrep1⟩
    | ok b s2 =>
      rw [hc] at hcreate
      have hR2 : RepInv n s2 := hcreate.2 hR1 hrep1
      have hchk := checkOnJobs_pres d cfg n none now s2 hcreate.1
      cases hco : checkOnJobs d cfg now s2 with
      | err e s3 =>
        rw [hco] at hchk
        simp only [iterBody, hk, hc, hco]
        exact ⟨hchk.1, hchk.2.1 hR2⟩
      | ok cc s3 =>
        rw [hco] at hchk
        simp only [iterBody, hk, hc, hco]
        exact ⟨hchk.1, hchk.2.1 hR2⟩

/-- One worker iteration keeps the worker invariant on any state. -/
theorem iterOnce_pres_plain (d : Driver) (cfg : Config) (n : Nat) (now : Int)
    (kfuel : Nat) (s : WState) (hI : WInv cfg n s) :
    WInv cfg n (iterState (iterOnce d cfg now kfuel s)) := by
  cases hq : s.newJobsQueue with
  | nil =>
    simp only [iterOnce, hq]
    exact iterBody_pres_plain d cfg n now kfuel none s hI trivial
  | cons item rest =>
    cases item with
    | none =>
      simp only [iterOnce, hq]
      exact (pop_sentinel_pres cfg n s rest hq hI).1
    | some j =>
      simp only [iterOnce, hq]
      obtain ⟨hI1, hok1, _⟩ := pop_some_pres cfg n s j rest hq hI
      exact iterBody_pres_plain d cfg n now kfuel (some j)
        { s with newJobsQueue := rest } hI1 hok1

/-- One worker iteration also keeps the reporting invariant when the pending
kill requests all name running jobs. -/
theorem iterOnce_pres_safe (d : Driver) (cfg : Config) (n : Nat) (now : Int)
    (kfuel : Nat) (s : WState) (hI : WInv cfg n s) (hR : RepInv n s)
    (hsafe : ∀ j ∈ s.killQueue, j ∈ s.runningJobs) :
    WInv cfg n (iterState (iterOnce d cfg now kfuel s)) ∧
    RepInv n (iterState (iterOnce d cfg now kfuel s)) := by
  cases hq : s.newJobsQueue with
  | nil =>
    simp only [iterOnce, hq]
    exact iterBody_pres_safe d cfg n now kfuel none s hI hR trivial trivial hsafe
  | cons item rest =>
    cases item with
    | none =>
      simp only [iterOnce, hq]
      obtain ⟨h1, h2⟩ := pop_sentinel_pres cfg n s rest hq hI
      exact ⟨h1, h2 hR⟩
    | some j =>
      simp only [iterOnce, hq]
      obtain ⟨hI1, hok1, hRN⟩ := pop_some_pres cfg n s j rest hq hI
      obtain ⟨hR1, hrep1⟩ := hRN hR
      exact iterBody_pres_safe d cfg n now kfuel (some j)
        { s with newJobsQueue := rest } hI1 hR1 hok1 hrep1 hsafe

/-- Issuing a job preserves the invariants (the fresh ID moves the counter). -/
theorem issue_pres (cfg : Config) (n : Nat) (s : WState) (c m : Nat)
    (cmd : String) (hI : WInv cfg n s) :
    WInv cfg (n + 1)
      { s with newJobsQueue := s.newJobsQueue ++ [some ⟨n, c, m, cmd⟩] } ∧
    (RepInv n s →
      RepInv (n + 1)
        { s with newJobsQueue := s.newJobsQueue ++ [some ⟨n, c, m, cmd⟩] }) := by
  have hpq : pipeline { s with newJobsQueue := s.newJobsQueue ++ [some ⟨n, c, m, cmd⟩] } =
      pipeline s ++ [n] := by
    simp [pipeline, waitIDs, queueIDs]
  have hwq : ∀ k, k ∈ waitIDs { s with
        newJobsQueue := s.newJobsQueue ++ [some ⟨n, c, m, cmd⟩] } ++
      queueIDs { s with newJobsQueue := s.newJobsQueue ++ [some ⟨n, c, m, cmd⟩] } →
      (k = n ∨ k ∈ waitIDs s ++ queueIDs s) := by
    intro k hk
    simp only [waitIDs, queueIDs, List.filterMap_append, List.mem_append] at hk ⊢
    rcases hk with hk | hk | hk
    · exact Or.inr (Or.inl hk)
    · exact Or.inr (Or.inr hk)
    · simp at hk
      exact Or.inl hk
  have hrunn : n ∉ s.runningJobs := by
    intro hmem
    exact absurd (hI.fresh n (submitLog_subset_pipeline s n (hI.run_sub n hmem)))
      (lt_irrefl n)
  constructor
  · refine ⟨hI.nodup_run, hI.card_le, ?_, hI.keys_run, hI.run_sub, ?_, ?_⟩
    · rw [hpq]
      exact sorted_append_lt (pipeline s) n hI.sorted hI.fresh
    · intro k hk
      rcases hwq k hk with rfl | hk
      · exact hrunn
      · exact hI.wq_run k hk
    · intro k hk
      rw [hpq, List.mem_append] at hk
      rcases hk with hk | hk
      · exact lt_trans (hI.fresh k hk) (by omega)
      · rw [List.mem_singleton.mp hk]
        omega
  · intro hR
    refine ⟨hR.nodup, hR.disj_run, ?_, ?_⟩
    · intro k hk hmem
      rcases hwq k hmem with rfl | hmem
      · exact absurd (hR.rep_fresh k hk) (lt_irrefl k)
      · exact hR.disj_wq k hk hmem
    · intro k hk
      exact lt_trans (hR.rep_fresh k hk) (by omega)

/-- Every event preserves the worker invariant at the system level. -/
theorem stepEv_pres_plain (d : Driver) (cfg : Config) (σ : Sys) (e : Ev)
    (hI : WInv cfg σ.nextJobID σ.w) :
    WInv cfg (stepEv d cfg σ e).nextJobID (stepEv d cfg σ e).w := by
  cases e with
  | issue c m cmd =>
    exact (issue_pres cfg σ.nextJobID σ.w c m cmd hI).1
  | killRequest id =>
    exact WInv_transport cfg σ.nextJobID σ.w _ rfl rfl rfl rfl rfl hI
  | workerIter now kfuel =>
    by_cases hst : σ.status = WStatus.active
    · have hiter := iterOnce_pres_plain d cfg σ.nextJobID now kfuel σ.w hI
      simp only [stepEv, if_pos hst]
      cases hio : iterOnce d cfg now kfuel σ.w with
      | cont w1 =>
        rw [hio] at hiter
        exact hiter
      | stopped w1 =>
        rw [hio] at hiter
        exact hiter
      | err e w1 =>
        rw [hio] at hiter
        exact hiter
      | hung w1 =>
        rw [hio] at hiter
        exact hiter
    · simp only [stepEv, if_neg hst]
      exact hI

/-- Every kill-safe event also preserves the reporting invariant. -/
theorem stepEv_pres_safe (d : Driver) (cfg : Config) (σ : Sys) (e : Ev)
    (hI : WInv cfg σ.nextJobID σ.w) (hR : RepInv σ.nextJobID σ.w)
    (hsafe : killSafeEv σ e = true) :
    WInv cfg (stepEv d cfg σ e).nextJobID (stepEv d cfg σ e).w ∧
    RepInv (stepEv d cfg σ e).nextJobID (stepEv d cfg σ e).w := by
  cases e with
  | issue c m cmd =>
    obtain ⟨h1, h2⟩ := issue_pres cfg σ.nextJobID σ.w c m cmd hI
    exact ⟨h1, h2 hR⟩
  | killRequest id =>
    exact ⟨WInv_transport cfg σ.nextJobID σ.w _ rfl rfl rfl rfl rfl hI,
      RepInv_transport σ.nextJobID σ.w _ rfl rfl rfl rfl rfl hR⟩
  | workerIter now kfuel =>
    by_cases hst : σ.status = WStatus.active
    · have hmem : ∀ j ∈ σ.w.killQueue, j ∈ σ.w.runningJobs := by
        simp only [killSafeEv, Bool.or_eq_true, decide_eq_true_eq] at hsafe
        rcases hsafe with hsafe | hsafe
        · exact absurd hst hsafe
        · intro j hj
          have := List.all_eq_true.mp hsafe j hj
          exact of_decide_eq_true this
      have hiter := iterOnce_pres_safe d cfg σ.nextJobID now kfuel σ.w hI hR hmem
      simp only [stepEv, if_pos hst]
      cases hio : iterOnce d cfg now kfuel σ.w with
      | cont w1 =>
        rw [hio] at hiter
        exact hiter
      | stopped w1 =>
        rw [hio] at hiter
        exact hiter
      | err e w1 =>
        rw [hio] at hiter
        exact hiter
      | hung w1 =>
        rw [hio] at hiter
        exact hiter
    · simp only [stepEv, if_neg hst]
      exact ⟨hI, hR⟩

/-- The worker invariant holds along every trace. -/
theorem runEvents_pres_plain (d : Driver) (cfg : Config) :
    ∀ (evs : List Ev) (σ : Sys), WInv cfg σ.nextJobID σ.w →
      WInv cfg (runEvents d cfg σ evs).nextJobID (runEvents d cfg σ evs).w := by
  intro evs
  induction evs with
  | nil => intro σ hI; exact hI
  | cons e evs ih =>
    intro σ hI
    exact ih (stepEv d cfg σ e) (stepEv_pres_plain d cfg σ e hI)

/-- Both invariants hold along every kill-safe trace. -/
theorem runEvents_pres_safe (d : Driver) (cfg : Config) :
    ∀ (evs : List Ev) (σ : Sys), WInv cfg σ.nextJobID σ.w →
      RepInv σ.nextJobID σ.w → KillsSafe d cfg σ evs = true →
      WInv cfg (runEvents d cfg σ evs).nextJobID (runEvents d cfg σ evs).w ∧
      RepInv (runEvents d cfg σ evs).nextJobID (runEvents d cfg σ evs).w := by
  intro evs
  induction evs with
  | nil => intro σ hI hR _; exact ⟨hI, hR⟩
  | cons e evs ih =>
    intro σ hI hR hsafe
    rw [show KillsSafe d cfg σ (e :: evs) =
      (killSafeEv σ e && KillsSafe d cfg (stepEv d cfg σ e) evs) from rfl,
      Bool.and_eq_true] at hsafe
    obtain ⟨h1, h2⟩ := stepEv_pres_safe d cfg σ e hI hR hsafe.1
    exact ih (stepEv d cfg σ e) h1 h2 hsafe.2

/-- The invariants hold at start-up. -/
theorem WInv_init (cfg : Config) : WInv cfg 0 initW := by
  refine ⟨?_, ?_, ?_, ?_, ?_, ?_, ?_⟩ <;>
    simp [initW, pipeline, waitIDs, queueIDs, keysOf]

/-- The reporting invariant holds at start-up. -/
theorem RepInv_init : RepInv 0 initW := by
  refine ⟨?_, ?_, ?_, ?_⟩ <;> simp [initW, reported]

/-- C2: the running set never exceeds the configured ceiling.  `createJobs`
admits a waiting job only while `len(runningJobs) < int(maxLocalJobs)`, every
other operation only removes from the set, so along every event trace from the
initial state the size of `runningJobs` stays at most `maxLocalJobs`. -/
theorem running_never_exceeds_ceiling (d : Driver) (cfg : Config)
    (evs : List Ev) :
    (runEvents d cfg initSys evs).w.runningJobs.length ≤ cfg.maxLocalJobs :=
  (runEvents_pres_plain d cfg evs initSys (WInv_init cfg)).card_le

/-- C6: submission happens in FIFO order of issuance.  Job IDs are allocated
in increasing order by `issueBatchJob`, and the log of `submitJob` invocations
of every reachable worker state is strictly increasing, so a job issued
earlier is submitted strictly before any job issued later. -/
theorem submissions_in_fifo_order (d : Driver) (cfg : Config)
    (evs : List Ev) :
    List.Sorted (· < ·) (runEvents d cfg initSys evs).w.submitLog := by
  have h := (runEvents_pres_plain d cfg evs initSys (WInv_init cfg)).sorted
  have h' : List.Pairwise (· < ·)
      (((runEvents d cfg initSys evs).w.submitLog ++
          waitIDs (runEvents d cfg initSys evs).w) ++
        queueIDs (runEvents d cfg initSys evs).w) := h
  exact (List.pairwise_append.mp (List.pairwise_append.mp h').1).1

/-- C1 (amended): a job ID is tracked in at most one of the waiting list and
the running set; and along any kill-safe trace (every kill request pending at
a worker iteration names a currently running job) each ID is reported at most
once across the updated-job and killed-confirmation queues. -/
theorem tracked_once_and_reported_once (d : Driver) (cfg : Config)
    (evs : List Ev) (hsafe : KillsSafe d cfg initSys evs = true) :
    (∀ k ∈ waitIDs (runEvents d cfg initSys evs).w,
      k ∉ (runEvents d cfg initSys evs).w.runningJobs) ∧
    (reported (runEvents d cfg initSys evs).w).Nodup := by
  obtain ⟨hI, hR⟩ :=
    runEvents_pres_safe d cfg evs initSys (WInv_init cfg) RepInv_init hsafe
  refine ⟨?_, hR.nodup⟩
  intro k hk
  exact hI.wq_run k (List.mem_append_left _ hk)

/-- Concrete kill-safe run: one job issued, submitted and still pending at the
first iteration, then killed; it ends up tracked nowhere twice and reported
exactly once. -/
theorem tracked_once_and_reported_once_witness :
    KillsSafe dPendOnce cfg1 initSys c1wevs = true ∧
    ((∀ k ∈ waitIDs (runEvents dPendOnce cfg1 initSys c1wevs).w,
        k ∉ (runEvents dPendOnce cfg1 initSys c1wevs).w.runningJobs) ∧
      (reported (runEvents dPendOnce cfg1 initSys c1wevs).w).Nodup) :=
  ⟨by decide, tracked_once_and_reported_once dPendOnce cfg1 c1wevs (by decide)⟩
